import Mathlib

/-!
# Verification of the obsidian-copilot-plus agent orchestration core

Shallow embedding of the tool registry, tool execution adapter, source
deduplication, reasoning narrator, ReAct agent loop and context-item XML
serialization of the repository, together with proofs of the specification
claims about them.

Conventions used throughout:
* JavaScript strings are modelled by Lean `String` (or `List Char` where a
  character-level argument is needed).
* JavaScript `undefined`-able fields are modelled by `Option`; the JS
  truthiness of a string/number is "nonempty"/"nonzero".
* `Map` objects are modelled by lists of entries in insertion order.
* Asynchronous effects (clock readings, model responses, abort signals) are
  modelled by oracle functions indexed by the loop iteration at which the
  code observes them.
-/

namespace CopilotPlus

/-- JS `x || y` on an optional number: `x` is used when present and nonzero
(`0` and `undefined` are falsy), otherwise `y`.  Models the `||` chains in
`ToolRegistry.executeTool`. -/
def jsOrNat (x : Option Nat) (y : Nat) : Nat :=
  match x with
  | some n => if n = 0 then y else n
  | none => y

/-- JS `s || d` on a string: `s` when nonempty, else `d`. -/
def jsOrStr (s d : String) : String :=
  if s = "" then d else s

/-- JS `s.toLowerCase()`, modelled character-wise (the same function as
`String.toLower`, written over the character list so that it is
kernel-evaluable). -/
def jsToLower (s : String) : String :=
  ⟨s.data.map Char.toLower⟩

/-- `pat` occurs as a contiguous prefix of `l`. -/
def startsWithChars : List Char → List Char → Bool
  | [], _ => true
  | _ :: _, [] => false
  | p :: ps, c :: cs => p == c && startsWithChars ps cs

/-- `pat` occurs somewhere inside `l` (JS `String.prototype.includes`). -/
def hasSubstrChars (pat : List Char) : List Char → Bool
  | [] => startsWithChars pat []
  | c :: cs => startsWithChars pat (c :: cs) || hasSubstrChars pat cs

/-- JS `s.includes(pat)`. -/
def jsIncludes (s pat : String) : Bool :=
  hasSubstrChars pat.data s.data

/-! ## Tool registry data model (src/tools/ToolRegistry.ts) -/

/-- Permission levels for tool execution. -/
inductive ToolPermission where
  | read
  | write
  | admin
deriving DecidableEq, Repr

/-- Tool categories (`ToolMetadata.category`). -/
inductive ToolCategory where
  | search
  | time
  | file
  | media
  | mcp
  | memory
  | custom
deriving DecidableEq, Repr

/-- Tool metadata (the fields of `ToolMetadata` that the registry logic
reads; optional JS booleans are collapsed to `Bool` since the code only
tests their truthiness). -/
structure ToolMetadata where
  id : String
  category : ToolCategory
  isAlwaysEnabled : Bool := false
  requiresVault : Bool := false
  timeoutMs : Option Nat := none
  permission : Option ToolPermission := none
  allowsAnnotatedOnly : Bool := false
deriving DecidableEq, Repr

/-- What a tool handler invocation (`tool.call(args, …)`) does: resolve with
a string, resolve with a non-string value (kept as its `JSON.stringify`
image), or reject with an error carrying a `name` and a `message`.  Timeouts
surface as a rejection whose `name` is `"AbortError"` (or whose message
mentions `timeout`), exactly what the `catch` block of `executeTool`
inspects. -/
inductive HandlerOutcome where
  | retString (s : String)
  | retValue (json : String)
  | thrown (name msg : String)
deriving DecidableEq, Repr

/-- The executable side of a registered tool (the `StructuredTool`): its
`name`, its schema validation (`schema.safeParse`: `none` = success or no
schema, `some msg` = failure with message `msg`) and its handler, both as
functions of the (opaque) argument blob. -/
structure StructuredToolM where
  name : String
  validateMsg : String → Option String
  call : String → HandlerOutcome

/-- A registry entry: LangChain tool plus metadata (`ToolDefinition`). -/
structure ToolDefinition where
  tool : StructuredToolM
  metadata : ToolMetadata

/-- The tool registry: a JS `Map` keyed by `metadata.id`, modelled as the
list of its entries in insertion order. -/
structure ToolRegistry where
  tools : List ToolDefinition

/-- `this.tools.get(id)`. -/
def ToolRegistry.lookup (reg : ToolRegistry) (toolId : String) : Option ToolDefinition :=
  reg.tools.find? (fun d => d.metadata.id == toolId)

/-- `PermissionCheckResult`. -/
structure PermissionCheckResult where
  allowed : Bool
  reason : Option String := none
  requiredPermission : Option ToolPermission := none
deriving DecidableEq, Repr

/-- The caller-supplied capability context of `checkPermission`. -/
structure PermissionContext where
  hasPlusLicense : Bool
  vaultAvailable : Bool
  hasWritePermission : Bool
  isAnnotatedFile : Bool := false
deriving DecidableEq, Repr

/-- `ToolRegistry.checkPermission` (ToolRegistry.ts lines 226-285),
translated check for check. -/
def ToolRegistry.checkPermission (reg : ToolRegistry) (toolId : String)
    (ctx : PermissionContext) : PermissionCheckResult :=
  match reg.lookup toolId with
  | none =>
      { allowed := false
        reason := some ("Tool '" ++ toolId ++ "' not found") }
  | some definition =>
      let metadata := definition.metadata
      if metadata.requiresVault && !ctx.vaultAvailable then
        { allowed := false
          reason := some "Tool requires vault access"
          requiredPermission := metadata.permission }
      else
        let requiredPermission := metadata.permission.getD ToolPermission.read
        if requiredPermission == ToolPermission.write && !ctx.hasWritePermission then
          { allowed := false
            reason := some "Tool requires write permission"
            requiredPermission := some ToolPermission.write }
        else if requiredPermission == ToolPermission.admin && !ctx.hasWritePermission then
          { allowed := false
            reason := some "Tool requires admin permission"
            requiredPermission := some ToolPermission.admin }
        else if metadata.allowsAnnotatedOnly && !ctx.isAnnotatedFile then
          { allowed := false
            reason := some "Tool can only operate on annotated/selected files"
            requiredPermission := metadata.permission }
        else
          { allowed := true
            requiredPermission := metadata.permission }

/-- `ToolExecutionResult` (note that `executionTimeMs` is optional and is
omitted by some branches of `executeTool`). -/
structure ToolExecutionResult where
  success : Bool
  result : Option String := none
  error : Option String := none
  executionTimeMs : Option Nat := none
deriving DecidableEq, Repr

/-- The `options` argument of `executeTool` (the abort signal itself plays
no role in the branches modelled here; its effect is part of the handler
outcome oracle). -/
structure ExecOptions where
  timeoutMs : Option Nat := none
deriving DecidableEq, Repr

/-- Instrumented execution record: the returned `ToolExecutionResult`
together with two ghost observations — whether the tool handler was invoked
and which timeout value the adapter armed.  `executeTool` itself is pure in
this embedding (its only side effect in the source is invoking the
handler, which the `handlerInvoked` flag records). -/
structure ExecTrace where
  res : ToolExecutionResult
  handlerInvoked : Bool
  timeoutUsed : Option Nat
deriving Repr

/-- The effective timeout computed by `executeTool` (ToolRegistry.ts line
309): `options.timeoutMs || metadata.timeoutMs || 30000`, with JS `||`
falsiness (`0` and `undefined` both fall through). -/
def effectiveTimeout (optionsTimeoutMs metadataTimeoutMs : Option Nat) : Nat :=
  jsOrNat optionsTimeoutMs (jsOrNat metadataTimeoutMs 30000)

/-- `ToolRegistry.executeTool` (ToolRegistry.ts lines 290-369).  `args` is
the opaque argument blob; `elapsed` is the oracle for
`Date.now() - startTime` at the moment a result is produced. -/
def ToolRegistry.executeTool (reg : ToolRegistry) (toolId : String) (args : String)
    (options : ExecOptions) (elapsed : Nat) : ExecTrace :=
  match reg.lookup toolId with
  | none =>
      { res := { success := false
                 error := some ("Tool '" ++ toolId ++ "' not found") }
        handlerInvoked := false
        timeoutUsed := none }
  | some definition =>
      let timeout := effectiveTimeout options.timeoutMs definition.metadata.timeoutMs
      match definition.tool.validateMsg args with
      | some vmsg =>
          { res := { success := false
                     error := some ("Invalid arguments: " ++ vmsg) }
            handlerInvoked := false
            timeoutUsed := some timeout }
      | none =>
          match definition.tool.call args with
          | HandlerOutcome.retString s =>
              { res := { success := true
                         result := some s
                         executionTimeMs := some elapsed }
                handlerInvoked := true
                timeoutUsed := some timeout }
          | HandlerOutcome.retValue json =>
              { res := { success := true
                         result := some json
                         executionTimeMs := some elapsed }
                handlerInvoked := true
                timeoutUsed := some timeout }
          | HandlerOutcome.thrown name msg =>
              if name == "AbortError" || jsIncludes msg "timeout" then
                { res := { success := false
                           error := some ("Tool execution timed out after " ++
                             toString timeout ++ "ms")
                           executionTimeMs := some elapsed }
                  handlerInvoked := true
                  timeoutUsed := some timeout }
              else
                { res := { success := false
                           error := some (jsOrStr msg
                             ("Error executing tool '" ++ toolId ++ "'"))
                           executionTimeMs := some elapsed }
                  handlerInvoked := true
                  timeoutUsed := some timeout }

/-! ## Registry enablement and clearing -/

/-- One pass of the `getEnabledTools` loop body (ToolRegistry.ts lines
104-123). -/
def enabledStep (enabledToolIds : List String) (vaultAvailable : Bool)
    (enabledTools : List ToolDefinition) (definition : ToolDefinition) :
    List ToolDefinition :=
  let metadata := definition.metadata
  if metadata.isAlwaysEnabled then
    if !metadata.requiresVault || vaultAvailable then
      enabledTools ++ [definition]
    else enabledTools
  else if enabledToolIds.contains metadata.id then
    if !metadata.requiresVault || vaultAvailable then
      enabledTools ++ [definition]
    else enabledTools
  else enabledTools

/-- `ToolRegistry.getEnabledTools` (ToolRegistry.ts lines 101-126)
instrumented to collect the whole matching `ToolDefinition`; the source
pushes `definition.tool`, recovered below by mapping `(·.tool)`. -/
def ToolRegistry.getEnabledToolDefs (reg : ToolRegistry) (enabledToolIds : List String)
    (vaultAvailable : Bool) : List ToolDefinition :=
  reg.tools.foldl (enabledStep enabledToolIds vaultAvailable) []

/-- `ToolRegistry.getEnabledTools`: the `StructuredTool` list the source
returns. -/
def ToolRegistry.getEnabledTools (reg : ToolRegistry) (enabledToolIds : List String)
    (vaultAvailable : Bool) : List StructuredToolM :=
  (reg.getEnabledToolDefs enabledToolIds vaultAvailable).map (·.tool)

/-- JS `Map.delete(id)`: remove the (unique) entry with key `id`. -/
def mapDelete (tools : List ToolDefinition) (toolId : String) : List ToolDefinition :=
  tools.eraseP (fun d => d.metadata.id == toolId)

/-- One pass of the clearing loops: delete the visited entry's key when it
satisfies the predicate. -/
def clearStep (p : ToolDefinition → Bool) (acc : List ToolDefinition)
    (d : ToolDefinition) : List ToolDefinition :=
  if p d then mapDelete acc d.metadata.id else acc

/-- `ToolRegistry.clearBuiltins` (ToolRegistry.ts lines 204-210): iterate
the entries and delete every non-MCP one.  Deleting the entry being visited
is safe during JS `Map` iteration, so the loop is modelled as a fold over a
snapshot of the entries. -/
def ToolRegistry.clearBuiltins (reg : ToolRegistry) : ToolRegistry :=
  { tools := reg.tools.foldl
      (clearStep (fun d => d.metadata.category != ToolCategory.mcp)) reg.tools }

/-- `ToolRegistry.clearMCPTools` (ToolRegistry.ts lines 215-221). -/
def ToolRegistry.clearMCPTools (reg : ToolRegistry) : ToolRegistry :=
  { tools := reg.tools.foldl
      (clearStep (fun d => d.metadata.category == ToolCategory.mcp)) reg.tools }

/-! ## Source deduplication -/

/-- `AgentSource` (AgentChainRunner.ts lines 119-124); the float relevance
score is modelled by an integer (only its ordering matters here). -/
structure AgentSource where
  title : String
  path : String
  score : Int
deriving DecidableEq, Repr

/-- The deduplication key: `(path || title).toLowerCase()`, the key used by
the dedupe logic mirrored in SearchTools.ts lines 232-235. -/
def sourceKey (s : AgentSource) : String :=
  jsToLower (jsOrStr s.path s.title)

/-- One step of the deduplication fold over the incoming sources: if the
key is already present, keep the higher-scoring entry in its original
position (strictly greater replaces, so ties keep the first-seen entry);
otherwise append. -/
def dedupStep (acc : List AgentSource) (s : AgentSource) : List AgentSource :=
  if acc.any (fun t => sourceKey t == sourceKey s) then
    acc.map (fun t =>
      if sourceKey t == sourceKey s && decide (t.score < s.score) then s else t)
  else acc ++ [s]

/-- Modelled from the spec: `deduplicateSources` lives in
`chainRunner/utils/toolExecution.ts`, which is not under `src/`.  Per spec
§4.3 it normalizes each source by `lowercase(path-or-title)`, keeps the
highest-scoring entry per key, and preserves first-seen order among
distinct keys — the same behaviour as the in-repo mirror of the logic in
`SearchTools.ts` lines 231-238 (`bestByKey`, strict `>` replacement). -/
def deduplicateSources (sources : List AgentSource) : List AgentSource :=
  sources.foldl dedupStep []

/-- Insert a key if unseen (used to express "first-seen order among
distinct keys"). -/
def insStep (ks : List String) (k : String) : List String :=
  if k ∈ ks then ks else ks ++ [k]

/-- The first-seen order of the distinct elements of a key list. -/
def firstSeenKeys (ks : List String) : List String :=
  ks.foldl insStep []

/-! ## Reasoning narrator (AgentChainRunner reasoning-block state) -/

/-- `AgentReasoningState.status`. -/
inductive ReasoningStatus where
  | reasoning
  | complete
  | collapsed
deriving DecidableEq, Repr

/-- One recorded reasoning step. -/
structure ReasoningStep where
  timestamp : Nat
  summary : String
  toolName : Option String
deriving DecidableEq, Repr

/-- The reasoning-block state the runner keeps: `reasoningState.status`,
the bounded rolling window `reasoningState.steps`, and the unbounded
parallel history `allReasoningSteps`. -/
structure NarratorState where
  status : ReasoningStatus
  rollingSteps : List ReasoningStep
  allSteps : List ReasoningStep
deriving DecidableEq, Repr

/-- The state established by `startReasoningTimer` before any step is
recorded (AgentChainRunner.ts lines 216-224). -/
def initialNarratorState : NarratorState :=
  { status := ReasoningStatus.reasoning, rollingSteps := [], allSteps := [] }

/-- `addReasoningStep` (AgentChainRunner.ts lines 274-291): always append
to the full history; unless `detailedOnly`, push onto the rolling window
and `shift` the oldest entry off once it exceeds 4. -/
def addReasoningStep (st : NarratorState) (timestamp : Nat) (summary : String)
    (toolName : Option String) (detailedOnly : Bool) : NarratorState :=
  let step : ReasoningStep := ⟨timestamp, summary, toolName⟩
  let st1 := { st with allSteps := st.allSteps ++ [step] }
  if detailedOnly then st1
  else
    let steps := st1.rollingSteps ++ [step]
    { st1 with rollingSteps := if steps.length > 4 then steps.drop 1 else steps }

/-- The serializer's input (`AgentReasoningState`): a status plus the step
list chosen by `buildReasoningBlockMarkup`. -/
structure AgentReasoningState where
  status : ReasoningStatus
  steps : List ReasoningStep
deriving DecidableEq, Repr

/-- Render a single step line of the reasoning block. -/
def renderReasoningStep (s : ReasoningStep) : String :=
  "\n- [" ++ toString s.timestamp ++ "] " ++ s.summary ++
    (match s.toolName with
     | some n => " (" ++ n ++ ")"
     | none => "")

/-- Modelled from the spec: `serializeReasoningBlock` lives in
`chainRunner/utils/AgentReasoningState.ts`, which is not under `src/`.
Per spec §4.4/§6 it renders a block whose structured content is the ordered
step list of the given state (each step with its timestamp, summary and
optional tool name), with a header distinguishing live from finalized
presentation. -/
def serializeReasoningBlock (st : AgentReasoningState) : String :=
  (match st.status with
   | ReasoningStatus.reasoning => "<reasoning in-progress>"
   | ReasoningStatus.complete => "<reasoning complete>"
   | ReasoningStatus.collapsed => "<reasoning collapsed>") ++
  String.join (st.steps.map renderReasoningStep)

/-- `buildReasoningBlockMarkup` (AgentChainRunner.ts lines 307-316): after
completion (`complete`/`collapsed`) serialize the state with the full
history substituted for its steps; while still `reasoning`, serialize the
rolling window. -/
def buildReasoningBlockMarkup (st : NarratorState) : String :=
  if st.status == ReasoningStatus.complete || st.status == ReasoningStatus.collapsed then
    serializeReasoningBlock { status := st.status, steps := st.allSteps }
  else
    serializeReasoningBlock { status := st.status, steps := st.rollingSteps }

/-- Override the narrator status (used to state how the block renders in
each status). -/
def withStatus (st : NarratorState) (status : ReasoningStatus) : NarratorState :=
  { st with status := status }

/-- The last `n` elements of a list. -/
def takeLast (n : Nat) (l : List α) : List α :=
  l.drop (l.length - n)

/-- An `addReasoningStep` call site, for quantifying over call
sequences. -/
structure StepCall where
  timestamp : Nat
  summary : String
  toolName : Option String
  detailedOnly : Bool
deriving DecidableEq, Repr

/-- The step a call records. -/
def StepCall.step (c : StepCall) : ReasoningStep :=
  ⟨c.timestamp, c.summary, c.toolName⟩

/-- Apply a sequence of `addReasoningStep` calls. -/
def applyCalls (st : NarratorState) (calls : List StepCall) : NarratorState :=
  calls.foldl (fun st c => addReasoningStep st c.timestamp c.summary c.toolName c.detailedOnly) st

/-! ## The ReAct agent loop (`runReActLoop`, AgentChainRunner.ts lines 768-1010)

The loop is driven by asynchronous observations, modelled as oracles
indexed by the number of completed iterations:
* `elapsed k` — the `Date.now() - loopStartTime` reading at the boundary
  after `k` completed iterations (also used for the post-loop re-read);
* `aborted k` — the abort-signal state observed at that boundary;
* `model k` — the outcome of the `k`-th `streamModelResponse` call: either
  a streamed response (content plus whether it carried tool calls) or a
  thrown transport error (which propagates to the caller).  A stream cut
  short by cancellation resolves as a response without tool calls, exactly
  as in the source's `catch` for `AbortError`.
The tool-execution body of an iteration never performs extra model calls
and is irrelevant to the claims proved here, so it is not represented. -/

/-- Outcome of one `streamModelResponse` call. -/
inductive ModelStep where
  | ok (content : String) (hasToolCalls : Bool)
  | err (msg : String)

/-- The oracle environment of one `runReActLoop` run. -/
structure LoopEnv where
  isVaultQAMode : Bool
  settingsMaxIterations : Nat
  timeoutMs : Nat
  elapsed : Nat → Nat
  aborted : Nat → Bool
  model : Nat → ModelStep
  abortHandledByTimer : Bool
  reasoningBlock : String

/-- Result of the loop: the value it returns (`finalResponse`) or the
error it lets propagate, plus the ghost count of model-call iterations
performed. -/
structure LoopOutcome where
  outcome : Except String String
  modelCalls : Nat
deriving Repr

/-- `reasoningBlock ? reasoningBlock + "\n\n" + msg : msg` (JS string
truthiness). -/
def joinBlock (block msg : String) : String :=
  if block = "" then msg else block ++ "\n\n" ++ msg

/-- `const maxIterations = isVaultQAMode ? 1 : settings.autonomousAgentMaxIterations`
(AgentChainRunner.ts line 782). -/
def resolveMaxIterations (isVaultQAMode : Bool) (settingsMaxIterations : Nat) : Nat :=
  if isVaultQAMode then 1 else settingsMaxIterations

/-- The code after the `while` loop (AgentChainRunner.ts lines 963-1009):
if the signal is aborted, return empty when the narrator timer already
handled the abort, otherwise an interruption notice; else report whichever
budget ran out.  `iter` is the number of completed iterations. -/
def reactExit (env : LoopEnv) (iter : Nat) : LoopOutcome :=
  if env.aborted iter then
    if env.abortHandledByTimer then
      { outcome := Except.ok "", modelCalls := iter }
    else
      { outcome := Except.ok (joinBlock env.reasoningBlock "The response was interrupted.")
        modelCalls := iter }
  else
    let timedOut := env.timeoutMs ≤ env.elapsed iter
    let limitMessage :=
      if timedOut then "I've reached the time limit for reasoning. Here's what I found so far."
      else "I've reached the maximum number of tool calls. Here's what I found so far."
    { outcome := Except.ok (joinBlock env.reasoningBlock limitMessage)
      modelCalls := iter }

/-- The `while (iteration < maxIterations)` loop body (lines 789-961).
`fuel` is `maxIterations - iter`, so `fuel = 0` is exactly the failed loop
guard.  Each pass checks abort and the wall clock, performs one model
call, and either returns the final answer (no tool calls; in Vault QA
mode tool calls are discarded, line 814), propagates a stream error, or
executes the tools and loops. -/
def reactGo (env : LoopEnv) : Nat → Nat → LoopOutcome
  | 0, iter => reactExit env iter
  | fuel + 1, iter =>
    if env.aborted iter then reactExit env iter
    else if env.timeoutMs ≤ env.elapsed iter then reactExit env iter
    else
      match env.model iter with
      | ModelStep.err msg => { outcome := Except.error msg, modelCalls := iter + 1 }
      | ModelStep.ok content hasToolCalls =>
          let toolCallsPresent := if env.isVaultQAMode then false else hasToolCalls
          if toolCallsPresent then reactGo env fuel (iter + 1)
          else
            { outcome := Except.ok (joinBlock env.reasoningBlock content)
              modelCalls := iter + 1 }

/-- `runReActLoop`: run the loop with the mode-resolved iteration budget. -/
def runReActLoop (env : LoopEnv) : LoopOutcome :=
  reactGo env (resolveMaxIterations env.isVaultQAMode env.settingsMaxIterations) 0

/-- Fixture: a run that is never aborted, whose model always returns tool
calls, with iteration budget 3 and a clock ticking 1ms per iteration. -/
def busyLoopEnv : LoopEnv :=
  { isVaultQAMode := false
    settingsMaxIterations := 3
    timeoutMs := 100
    elapsed := fun k => k
    aborted := fun _ => false
    model := fun _ => ModelStep.ok "step" true
    abortHandledByTimer := false
    reasoningBlock := "" }

/-- Fixture: the cancellation signal is aborted before the first model
call and the narrator timer did *not* handle the abort. -/
def abortedLoopEnv : LoopEnv :=
  { isVaultQAMode := false
    settingsMaxIterations := 4
    timeoutMs := 180000
    elapsed := fun _ => 0
    aborted := fun _ => true
    model := fun _ => ModelStep.ok "" true
    abortHandledByTimer := false
    reasoningBlock := "" }

/-- Fixture: aborted before the first model call, with the abort already
handled by the narrator timer. -/
def abortedTimerLoopEnv : LoopEnv :=
  { abortedLoopEnv with abortHandledByTimer := true, reasoningBlock := "rb" }

/-! ## XML escaping (src/unnamed/part_003, `escapeXml`) -/

/-- JS `str.replace(/pat/g, rep)` for a single-character pattern: replace
every occurrence of `pat` by `rep`. -/
def replaceCharAll (pat : Char) (rep : List Char) : List Char → List Char
  | [] => []
  | c :: rest => (if c = pat then rep else [c]) ++ replaceCharAll pat rep rest

/-- `escapeXml` (part_003 lines 53-60): the chained global replacements
`& → &amp;`, `< → &lt;`, `> → &gt;`, `" → &quot;`, `' → &apos;`, applied in
that order. -/
def escapeXmlChars (l : List Char) : List Char :=
  replaceCharAll '\'' "&apos;".data
    (replaceCharAll '"' "&quot;".data
      (replaceCharAll '>' "&gt;".data
        (replaceCharAll '<' "&lt;".data
          (replaceCharAll '&' "&amp;".data l))))

/-- `escapeXml` on strings. -/
def escapeXml (s : String) : String :=
  ⟨escapeXmlChars s.data⟩

/-- The per-character image of the whole escaping pipeline (the chained
replacements process characters independently; the equivalence is proved
below as `escapeXmlChars_eq_flat`). -/
def escChar (c : Char) : List Char :=
  if c = '&' then "&amp;".data
  else if c = '<' then "&lt;".data
  else if c = '>' then "&gt;".data
  else if c = '"' then "&quot;".data
  else if c = '\'' then "&apos;".data
  else [c]

/-- Character-wise escaping (specification form of `escapeXmlChars`). -/
def escapeFlat : List Char → List Char
  | [] => []
  | c :: rest => escChar c ++ escapeFlat rest

/-- One of the five entities `&amp; &lt; &gt; &quot; &apos;` begins
here. -/
def startsWithEntity (l : List Char) : Bool :=
  startsWithChars "&amp;".data l || startsWithChars "&lt;".data l ||
    startsWithChars "&gt;".data l || startsWithChars "&quot;".data l ||
    startsWithChars "&apos;".data l

/-- Checks that every `&` in the list is the first character of one of the
five entities `&amp; &lt; &gt; &quot; &apos;` (scanning every suffix). -/
def ampWellFormed : List Char → Bool
  | [] => true
  | c :: rest => ((c != '&') || startsWithEntity (c :: rest)) && ampWellFormed rest

/-- A character is one of the four raw specials that must never survive
escaping. -/
def isRawSpecial (c : Char) : Bool :=
  c = '<' || c = '>' || c = '"' || c = '\''

/-- Decode one entity tail (the part after `&`): the decoded character and
the remaining input. -/
def decodeEntity (t : List Char) : Option (Char × List Char) :=
  if startsWithChars "amp;".data t then some ('&', t.drop 4)
  else if startsWithChars "lt;".data t then some ('<', t.drop 3)
  else if startsWithChars "gt;".data t then some ('>', t.drop 3)
  else if startsWithChars "quot;".data t then some ('"', t.drop 5)
  else if startsWithChars "apos;".data t then some ('\'', t.drop 5)
  else none

/-- Fuel-indexed decoder for escaped text: folds the five entities back to
their characters.  With fuel at least the input length it consumes the
whole input (a left inverse of `escapeXmlChars`, giving injectivity). -/
def unescGo : Nat → List Char → List Char
  | 0, l => l
  | _ + 1, [] => []
  | fuel + 1, c :: t =>
    if c = '&' then
      match decodeEntity t with
      | some (d, r) => d :: unescGo fuel r
      | none => c :: unescGo fuel t
    else c :: unescGo fuel t

/-- Decoder for escaped text. -/
def unescapeXmlChars (l : List Char) : List Char :=
  unescGo l.length l

/-- String-level decoder. -/
def unescapeXml (s : String) : String :=
  ⟨unescapeXmlChars s.data⟩

/-! ## Context items and XML serialization (src/context/ContextItem.ts,
src/unnamed/part_003) -/

/-- JS truthiness of an optional string. -/
def jsTruthyOptStr : Option String → Bool
  | some s => s != ""
  | none => false

/-- JS truthiness of an optional number. -/
def jsTruthyOptNat : Option Nat → Bool
  | some n => n != 0
  | none => false

/-- `NoteRefContextItem` (the fields its serializer reads). -/
structure NoteRefItem where
  title : String
  path : String
  «section» : Option String := none
  lineStart : Option Int := none
  lineEnd : Option Int := none
  content : Option String := none
  score : Option Int := none
deriving DecidableEq, Repr

/-- `VaultSearchResultContextItem`. -/
structure VaultSearchResultItem where
  title : String
  path : String
  content : String
  score : Int
  explanation : Option String := none
  «section» : Option String := none
deriving DecidableEq, Repr

/-- `UrlRefContextItem` (`domain` is `metadata?.domain`). -/
structure UrlRefItem where
  title : String
  url : String
  faviconUrl : Option String := none
  content : Option String := none
  domain : Option String := none
deriving DecidableEq, Repr

/-- `YouTubeTranscriptContextItem`. -/
structure YouTubeTranscriptItem where
  title : String
  url : String
  videoId : String
  content : String
  duration : Option Nat := none
  author : Option String := none
deriving DecidableEq, Repr

/-- `WebTabContextItem`. -/
structure WebTabItem where
  title : String
  url : String
  faviconUrl : Option String := none
  isLoaded : Option Bool := none
  isActive : Bool := false
  content : Option String := none
deriving DecidableEq, Repr

/-- `SelectedTextNoteContextItem`. -/
structure SelectedTextNoteItem where
  content : String
  notePath : String
  noteTitle : String
  startLine : Int
  endLine : Int
deriving DecidableEq, Repr

/-- `SelectedTextWebContextItem`. -/
structure SelectedTextWebItem where
  content : String
  url : String
  pageTitle : String
  faviconUrl : Option String := none
deriving DecidableEq, Repr

/-- `TagRefContextItem`. -/
structure TagRefItem where
  title : String
  tag : String
  matchingNotes : Option (List String) := none
deriving DecidableEq, Repr

/-- `FolderRefContextItem`. -/
structure FolderRefItem where
  title : String
  path : String
  matchingNotes : Option (List String) := none
deriving DecidableEq, Repr

/-- `CustomContentContextItem` (`source` is the `ContextSourceType`
discriminator string, embedded raw by the serializer). -/
structure CustomContentItem where
  title : String
  source : String
  content : String
deriving DecidableEq, Repr

/-- The closed `ContextItem` union (ContextItem.ts lines 225-235).  The
serializer's `default` arm is unreachable for this closed union and is not
modelled. -/
inductive ContextItem where
  | note_ref (item : NoteRefItem)
  | vault_search_result (item : VaultSearchResultItem)
  | url_ref (item : UrlRefItem)
  | youtube_transcript (item : YouTubeTranscriptItem)
  | web_tab (item : WebTabItem)
  | selected_text_note (item : SelectedTextNoteItem)
  | selected_text_web (item : SelectedTextWebItem)
  | tag_ref (item : TagRefItem)
  | folder_ref (item : FolderRefItem)
  | custom_content (item : CustomContentItem)
deriving DecidableEq, Repr

/-- The `CONTEXT_XML_TAGS` table (part_003 lines 37-48). -/
def contextXmlTag : ContextItem → String
  | ContextItem.note_ref _ => "note"
  | ContextItem.vault_search_result _ => "search_result"
  | ContextItem.url_ref _ => "url"
  | ContextItem.youtube_transcript _ => "youtube_transcript"
  | ContextItem.web_tab _ => "web_tab"
  | ContextItem.selected_text_note _ => "selected_text"
  | ContextItem.selected_text_web _ => "selected_text"
  | ContextItem.tag_ref _ => "tag"
  | ContextItem.folder_ref _ => "folder"
  | ContextItem.custom_content _ => "custom"

/-- Render one `name="value"` attribute. -/
def xmlAttr (name value : String) : String :=
  name ++ "=\"" ++ value ++ "\""

/-- Wrap content in `<tag attrs>\ncontent\n</tag>`. -/
def xmlWrap (tagName attrString content : String) : String :=
  "<" ++ tagName ++ " " ++ attrString ++ ">\n" ++ content ++ "\n</" ++ tagName ++ ">"

/-- Self-closing `<tag attrs />`. -/
def xmlSelfClose (tagName attrString : String) : String :=
  "<" ++ tagName ++ " " ++ attrString ++ " />"

/-- `serializeNoteRefToXml` (part_003 lines 96-112), with the escaping
function abstracted (`esc := escapeXml` reproduces the source literally;
`esc := id` gives the template on pre-escaped fields). -/
def serializeNoteRefWith (esc : String → String) (item : NoteRefItem)
    (tagName : String) : String :=
  let content := item.content.getD ""
  let attrs := [xmlAttr "title" (esc item.title), xmlAttr "path" (esc item.path)]
  let attrs := attrs ++
    (if jsTruthyOptStr item.«section» then
      [xmlAttr "section" (esc (item.«section».getD ""))] else [])
  let attrs := attrs ++
    (match item.lineStart with
     | some n => [xmlAttr "lineStart" (toString n)]
     | none => [])
  let attrs := attrs ++
    (match item.lineEnd with
     | some n => [xmlAttr "lineEnd" (toString n)]
     | none => [])
  let attrs := attrs ++
    (match item.score with
     | some sc => [xmlAttr "score" (toString sc)]
     | none => [])
  let attrString := String.intercalate " " attrs
  if content != "" then xmlWrap tagName attrString (esc content)
  else xmlSelfClose tagName attrString

/-- `serializeVaultSearchResultToXml` (part_003 lines 117-134). -/
def serializeVaultSearchResultWith (esc : String → String)
    (item : VaultSearchResultItem) (tagName : String) : String :=
  let attrs := [xmlAttr "title" (esc item.title), xmlAttr "path" (esc item.path),
    xmlAttr "score" (toString item.score)]
  let attrs := attrs ++
    (if jsTruthyOptStr item.«section» then
      [xmlAttr "section" (esc (item.«section».getD ""))] else [])
  let attrs := attrs ++
    (if jsTruthyOptStr item.explanation then
      [xmlAttr "explanation" (esc (item.explanation.getD ""))] else [])
  let attrString := String.intercalate " " attrs
  let content := item.content
  xmlWrap tagName attrString (esc content)

/-- `serializeUrlRefToXml` (part_003 lines 139-153). -/
def serializeUrlRefWith (esc : String → String) (item : UrlRefItem)
    (tagName : String) : String :=
  let attrs := [xmlAttr "title" (esc item.title), xmlAttr "url" (esc item.url)]
  let attrs := attrs ++
    (if jsTruthyOptStr item.faviconUrl then
      [xmlAttr "favicon" (esc (item.faviconUrl.getD ""))] else [])
  let attrs := attrs ++
    (if jsTruthyOptStr item.domain then
      [xmlAttr "domain" (esc (item.domain.getD ""))] else [])
  let attrString := String.intercalate " " attrs
  let content := item.content.getD ""
  if content != "" then xmlWrap tagName attrString (esc content)
  else xmlSelfClose tagName attrString

/-- `serializeYouTubeTranscriptToXml` (part_003 lines 158-171); `videoId`
and `duration` are embedded without escaping, as in the source. -/
def serializeYouTubeTranscriptWith (esc : String → String)
    (item : YouTubeTranscriptItem) (tagName : String) : String :=
  let attrs := [xmlAttr "title" (esc item.title), xmlAttr "url" (esc item.url),
    xmlAttr "videoId" item.videoId]
  let attrs := attrs ++
    (if jsTruthyOptNat item.duration then
      [xmlAttr "duration" (toString (item.duration.getD 0))] else [])
  let attrs := attrs ++
    (if jsTruthyOptStr item.author then
      [xmlAttr "author" (esc (item.author.getD ""))] else [])
  let attrString := String.intercalate " " attrs
  xmlWrap tagName attrString (esc item.content)

/-- `serializeWebTabToXml` (part_003 lines 176-191). -/
def serializeWebTabWith (esc : String → String) (item : WebTabItem)
    (tagName : String) : String :=
  let attrs := [xmlAttr "title" (esc item.title), xmlAttr "url" (esc item.url)]
  let attrs := attrs ++
    (if jsTruthyOptStr item.faviconUrl then
      [xmlAttr "favicon" (esc (item.faviconUrl.getD ""))] else [])
  let attrs := attrs ++
    (match item.isLoaded with
     | some b => [xmlAttr "loaded" (toString b)]
     | none => [])
  let attrs := attrs ++ (if item.isActive then [xmlAttr "active" "true"] else [])
  let attrString := String.intercalate " " attrs
  let content := item.content.getD ""
  if content != "" then xmlWrap tagName attrString (esc content)
  else xmlSelfClose tagName attrString

/-- `serializeSelectedTextToXml` (part_003 lines 196-218), note arm. -/
def serializeSelectedTextNoteWith (esc : String → String)
    (item : SelectedTextNoteItem) (tagName : String) : String :=
  let attrs := [xmlAttr "sourceType" "note",
    xmlAttr "noteTitle" (esc item.noteTitle),
    xmlAttr "notePath" (esc item.notePath),
    xmlAttr "startLine" (toString item.startLine),
    xmlAttr "endLine" (toString item.endLine)]
  let attrString := String.intercalate " " attrs
  xmlWrap tagName attrString (esc item.content)

/-- `serializeSelectedTextToXml` (part_003 lines 196-218), web arm. -/
def serializeSelectedTextWebWith (esc : String → String)
    (item : SelectedTextWebItem) (tagName : String) : String :=
  let attrs := [xmlAttr "sourceType" "web",
    xmlAttr "pageTitle" (esc item.pageTitle),
    xmlAttr "url" (esc item.url)]
  let attrs := attrs ++
    (if jsTruthyOptStr item.faviconUrl then
      [xmlAttr "favicon" (esc (item.faviconUrl.getD ""))] else [])
  let attrString := String.intercalate " " attrs
  xmlWrap tagName attrString (esc item.content)

/-- `serializeTagRefToXml` (part_003 lines 223-233). -/
def serializeTagRefWith (esc : String → String) (item : TagRefItem)
    (tagName : String) : String :=
  let attrs := [xmlAttr "tag" (esc item.tag), xmlAttr "title" (esc item.title)]
  let attrs := attrs ++
    (match item.matchingNotes with
     | some notes =>
        if notes.length > 0 then
          [xmlAttr "notes" (String.intercalate "," (notes.map esc))]
        else []
     | none => [])
  let attrString := String.intercalate " " attrs
  xmlSelfClose tagName attrString

/-- `serializeFolderRefToXml` (part_003 lines 238-248). -/
def serializeFolderRefWith (esc : String → String) (item : FolderRefItem)
    (tagName : String) : String :=
  let attrs := [xmlAttr "path" (esc item.path), xmlAttr "title" (esc item.title)]
  let attrs := attrs ++
    (match item.matchingNotes with
     | some notes =>
        if notes.length > 0 then
          [xmlAttr "notes" (String.intercalate "," (notes.map esc))]
        else []
     | none => [])
  let attrString := String.intercalate " " attrs
  xmlSelfClose tagName attrString

/-- `serializeCustomContentToXml` (part_003 lines 253-259); `source` is
embedded without escaping, as in the source. -/
def serializeCustomContentWith (esc : String → String) (item : CustomContentItem)
    (tagName : String) : String :=
  let attrs := [xmlAttr "title" (esc item.title), xmlAttr "source" item.source]
  let attrString := String.intercalate " " attrs
  xmlWrap tagName attrString (esc item.content)

/-- `serializeContextItemToXml` (part_003 lines 65-91) with the escaping
function abstracted. -/
def serializeContextItemWith (esc : String → String) (item : ContextItem) : String :=
  let tagName := contextXmlTag item
  match item with
  | ContextItem.note_ref x => serializeNoteRefWith esc x tagName
  | ContextItem.vault_search_result x => serializeVaultSearchResultWith esc x tagName
  | ContextItem.url_ref x => serializeUrlRefWith esc x tagName
  | ContextItem.youtube_transcript x => serializeYouTubeTranscriptWith esc x tagName
  | ContextItem.web_tab x => serializeWebTabWith esc x tagName
  | ContextItem.selected_text_note x => serializeSelectedTextNoteWith esc x tagName
  | ContextItem.selected_text_web x => serializeSelectedTextWebWith esc x tagName
  | ContextItem.tag_ref x => serializeTagRefWith esc x tagName
  | ContextItem.folder_ref x => serializeFolderRefWith esc x tagName
  | ContextItem.custom_content x => serializeCustomContentWith esc x tagName

/-- `serializeContextItemToXml`: the source serializer (escaping with
`escapeXml` exactly at the places the source does). -/
def serializeContextItemToXml (item : ContextItem) : String :=
  serializeContextItemWith escapeXml item

/-- The same templates with every field embedded verbatim: used to state
that the source serializer embeds its string fields only through
`escapeXml`. -/
def serializeContextItemRaw (item : ContextItem) : String :=
  serializeContextItemWith (fun s => s) item

/-- Apply `escapeXml` to exactly the fields the source serializer escapes
(`title`, `path`, `url`, `content` and the other escaped string fields;
`videoId`, `source` and the numeric/boolean fields are embedded raw by the
source and left untouched). -/
def escapeContextFields : ContextItem → ContextItem
  | ContextItem.note_ref x =>
      ContextItem.note_ref { x with
        title := escapeXml x.title
        path := escapeXml x.path
        «section» := x.«section».map escapeXml
        content := x.content.map escapeXml }
  | ContextItem.vault_search_result x =>
      ContextItem.vault_search_result { x with
        title := escapeXml x.title
        path := escapeXml x.path
        content := escapeXml x.content
        explanation := x.explanation.map escapeXml
        «section» := x.«section».map escapeXml }
  | ContextItem.url_ref x =>
      ContextItem.url_ref { x with
        title := escapeXml x.title
        url := escapeXml x.url
        faviconUrl := x.faviconUrl.map escapeXml
        content := x.content.map escapeXml
        domain := x.domain.map escapeXml }
  | ContextItem.youtube_transcript x =>
      ContextItem.youtube_transcript { x with
        title := escapeXml x.title
        url := escapeXml x.url
        content := escapeXml x.content
        author := x.author.map escapeXml }
  | ContextItem.web_tab x =>
      ContextItem.web_tab { x with
        title := escapeXml x.title
        url := escapeXml x.url
        faviconUrl := x.faviconUrl.map escapeXml
        content := x.content.map escapeXml }
  | ContextItem.selected_text_note x =>
      ContextItem.selected_text_note { x with
        content := escapeXml x.content
        notePath := escapeXml x.notePath
        noteTitle := escapeXml x.noteTitle }
  | ContextItem.selected_text_web x =>
      ContextItem.selected_text_web { x with
        content := escapeXml x.content
        url := escapeXml x.url
        pageTitle := escapeXml x.pageTitle
        faviconUrl := x.faviconUrl.map escapeXml }
  | ContextItem.tag_ref x =>
      ContextItem.tag_ref { x with
        title := escapeXml x.title
        tag := escapeXml x.tag
        matchingNotes := x.matchingNotes.map (·.map escapeXml) }
  | ContextItem.folder_ref x =>
      ContextItem.folder_ref { x with
        title := escapeXml x.title
        path := escapeXml x.path
        matchingNotes := x.matchingNotes.map (·.map escapeXml) }
  | ContextItem.custom_content x =>
      ContextItem.custom_content { x with
        title := escapeXml x.title
        content := escapeXml x.content }

/-! ## Concrete fixtures for witnesses -/

/-- A trivial handler: validates anything, returns `"ok"`. -/
def simpleToolImpl (toolId : String) : StructuredToolM :=
  { name := toolId
    validateMsg := fun _ => none
    call := fun _ => HandlerOutcome.retString "ok" }

/-- A registry entry built from metadata with the trivial handler. -/
def simpleToolDef (meta : ToolMetadata) : ToolDefinition :=
  { tool := simpleToolImpl meta.id, metadata := meta }

/-- Metadata with only an id and a category (all flags defaulted). -/
def plainMeta (toolId : String) (cat : ToolCategory) : ToolMetadata :=
  { id := toolId, category := cat }

/-- Fixture: five narrator step calls, none `detailedOnly`. -/
def sampleStepCalls : List StepCall :=
  [⟨0, "s1", none, false⟩, ⟨1, "s2", none, false⟩, ⟨2, "s3", some "t", false⟩,
   ⟨3, "s4", none, false⟩, ⟨4, "s5", none, false⟩]

/-- Fixture: a note-reference context item with XML-special characters in
its fields. -/
def sampleNoteItem : ContextItem :=
  ContextItem.note_ref
    { title := "T<1>", path := "a&b.md", content := some "x'y\"z" }

/-! # Theorems -/

/-! ## C2: unknown tools fail closed -/

/-- C2: for every tool identifier not present in the registry,
`checkPermission` returns a denial whose reason states the tool was not
found, `executeTool` returns `success = false` with a "not found" error,
and in both cases no tool handler is invoked (`checkPermission` never
touches a handler by construction; `executeTool`'s handler-invocation flag
is `false`). -/
theorem unknown_tool_fails_closed (reg : ToolRegistry) (toolId : String)
    (ctx : PermissionContext) (args : String) (options : ExecOptions) (elapsed : Nat)
    (h : reg.lookup toolId = none) :
    (reg.checkPermission toolId ctx).allowed = false ∧
    (reg.checkPermission toolId ctx).reason =
      some ("Tool '" ++ toolId ++ "' not found") ∧
    (reg.executeTool toolId args options elapsed).res.success = false ∧
    (reg.executeTool toolId args options elapsed).res.error =
      some ("Tool '" ++ toolId ++ "' not found") ∧
    (reg.executeTool toolId args options elapsed).handlerInvoked = false := by
  unfold ToolRegistry.checkPermission ToolRegistry.executeTool
  rw [h]
  exact ⟨rfl, rfl, rfl, rfl, rfl⟩

/-- Witness for C2 at the empty registry and the identifier
`"nonexistent"`. -/
theorem unknown_tool_fails_closed_witness :
    (ToolRegistry.checkPermission ⟨[]⟩ "nonexistent" ⟨true, true, true, false⟩).allowed
      = false ∧
    (ToolRegistry.checkPermission ⟨[]⟩ "nonexistent" ⟨true, true, true, false⟩).reason =
      some ("Tool '" ++ "nonexistent" ++ "' not found") ∧
    (ToolRegistry.executeTool ⟨[]⟩ "nonexistent" "{}" {} 0).res.success = false ∧
    (ToolRegistry.executeTool ⟨[]⟩ "nonexistent" "{}" {} 0).res.error =
      some ("Tool '" ++ "nonexistent" ++ "' not found") ∧
    (ToolRegistry.executeTool ⟨[]⟩ "nonexistent" "{}" {} 0).handlerInvoked = false :=
  unknown_tool_fails_closed ⟨[]⟩ "nonexistent" ⟨true, true, true, false⟩ "{}" {} 0 rfl

/-! ## C3: the effective timeout -/

/-- C3 counterexample: the claim says `options.timeoutMs` is used whenever
present, *including when it is 0*.  But line 309 uses JS `||`, so a present
`timeoutMs: 0` is falsy and falls through to the tool metadata: with
`options.timeoutMs = some 0` and `metadata.timeoutMs = some 5` the armed
timeout is 5ms, not 0ms. -/
theorem effective_timeout_zero_counterexample :
    (ToolRegistry.executeTool
        ⟨[simpleToolDef { plainMeta "t" ToolCategory.custom with timeoutMs := some 5 }]⟩
        "t" "{}" { timeoutMs := some 0 } 0).timeoutUsed = some 5 ∧
      (5 : Nat) ≠ 0 := by
  exact ⟨rfl, by decide⟩

/-- C3 (amended): for every registered tool, the effective timeout armed by
`executeTool` is `options.timeoutMs` when present *and nonzero*, otherwise
the metadata's `timeoutMs` when present *and nonzero*, otherwise 30000 ms
(JS `||` semantics; a present-but-zero value falls through). -/
theorem effective_timeout_spec (reg : ToolRegistry) (toolId : String)
    (d : ToolDefinition) (args : String) (options : ExecOptions) (elapsed : Nat)
    (h : reg.lookup toolId = some d) :
    (reg.executeTool toolId args options elapsed).timeoutUsed =
      some (effectiveTimeout options.timeoutMs d.metadata.timeoutMs) ∧
    (∀ n : Nat, n ≠ 0 → ∀ m, effectiveTimeout (some n) m = n) ∧
    (∀ k : Nat, k ≠ 0 →
      effectiveTimeout (some 0) (some k) = k ∧ effectiveTimeout none (some k) = k) ∧
    effectiveTimeout (some 0) (some 0) = 30000 ∧
    effectiveTimeout (some 0) none = 30000 ∧
    effectiveTimeout none (some 0) = 30000 ∧
    effectiveTimeout none none = 30000 := by
  refine ⟨?_, ?_, ?_, rfl, rfl, rfl, rfl⟩
  · unfold ToolRegistry.executeTool
    rw [h]
    cases hv : d.tool.validateMsg args with
    | some vmsg => simp [hv]
    | none =>
      cases hc : d.tool.call args with
      | retString s => simp [hv, hc]
      | retValue j => simp [hv, hc]
      | thrown name msg =>
        by_cases hab : (name == "AbortError" || jsIncludes msg "timeout") = true <;>
          simp [hv, hc, hab]
  · intro n hn m
    simp [effectiveTimeout, jsOrNat, hn]
  · intro k hk
    exact ⟨by simp [effectiveTimeout, jsOrNat, hk], by simp [effectiveTimeout, jsOrNat, hk]⟩

/-- Witness for C3's amended theorem at a concrete one-tool registry. -/
theorem effective_timeout_spec_witness :
    (ToolRegistry.executeTool
        ⟨[simpleToolDef { plainMeta "t" ToolCategory.custom with timeoutMs := some 5 }]⟩
        "t" "{}" { timeoutMs := some 7 } 0).timeoutUsed =
      some (effectiveTimeout (some 7) (some 5)) ∧
    (∀ n : Nat, n ≠ 0 → ∀ m, effectiveTimeout (some n) m = n) ∧
    (∀ k : Nat, k ≠ 0 →
      effectiveTimeout (some 0) (some k) = k ∧ effectiveTimeout none (some k) = k) ∧
    effectiveTimeout (some 0) (some 0) = 30000 ∧
    effectiveTimeout (some 0) none = 30000 ∧
    effectiveTimeout none (some 0) = 30000 ∧
    effectiveTimeout none none = 30000 :=
  effective_timeout_spec
    ⟨[simpleToolDef { plainMeta "t" ToolCategory.custom with timeoutMs := some 5 }]⟩
    "t" (simpleToolDef { plainMeta "t" ToolCategory.custom with timeoutMs := some 5 })
    "{}" { timeoutMs := some 7 } 0 rfl

/-! ## C8: execution-time recording -/

/-- C8 counterexample: for an unknown tool, the returned
`ToolExecutionResult` carries no `executionTimeMs` at all (ToolRegistry.ts
lines 300-305 return before the timing fields are attached), contradicting
"on every outcome". -/
theorem execution_time_unknown_counterexample :
    (ToolRegistry.executeTool ⟨[]⟩ "missing" "{}" {} 5).res.executionTimeMs = none ∧
    (5 : Nat) = 5 :=
  ⟨rfl, rfl⟩

/-- C8 (amended): `executeTool` records `executionTimeMs` on every outcome
of an actual handler invocation (success, handler error, and timeout), but
returns *without* it on the two early-return paths — unknown tool and
argument-validation failure — which also never invoke the handler.  The
adapter is otherwise pure: in this embedding its only effect is the
handler invocation recorded by the `handlerInvoked` flag. -/
theorem execution_time_recorded (reg : ToolRegistry) (toolId : String)
    (args : String) (options : ExecOptions) (elapsed : Nat) :
    (reg.lookup toolId = none →
      (reg.executeTool toolId args options elapsed).res.executionTimeMs = none ∧
      (reg.executeTool toolId args options elapsed).handlerInvoked = false) ∧
    (∀ d, reg.lookup toolId = some d →
      (∀ vmsg, d.tool.validateMsg args = some vmsg →
        (reg.executeTool toolId args options elapsed).res.executionTimeMs = none ∧
        (reg.executeTool toolId args options elapsed).handlerInvoked = false) ∧
      (d.tool.validateMsg args = none →
        (reg.executeTool toolId args options elapsed).res.executionTimeMs = some elapsed ∧
        (reg.executeTool toolId args options elapsed).handlerInvoked = true)) := by
  constructor
  · intro h
    unfold ToolRegistry.executeTool
    rw [h]
    exact ⟨rfl, rfl⟩
  · intro d h
    constructor
    · intro vmsg hv
      unfold ToolRegistry.executeTool
      rw [h]
      simp [hv]
    · intro hv
      unfold ToolRegistry.executeTool
      rw [h]
      cases hc : d.tool.call args with
      | retString s => simp [hv, hc]
      | retValue j => simp [hv, hc]
      | thrown name msg =>
        by_cases hab : (name == "AbortError" || jsIncludes msg "timeout") = true <;>
          simp [hv, hc, hab]

/-- Witness for C8's amended theorem: the unknown-tool path at the empty
registry, and the handler path at a one-tool registry. -/
theorem execution_time_recorded_witness :
    ((ToolRegistry.executeTool ⟨[]⟩ "missing" "{}" {} 3).res.executionTimeMs = none ∧
      (ToolRegistry.executeTool ⟨[]⟩ "missing" "{}" {} 3).handlerInvoked = false) ∧
    ((ToolRegistry.executeTool ⟨[simpleToolDef (plainMeta "t" ToolCategory.custom)]⟩
        "t" "{}" {} 9).res.executionTimeMs = some 9 ∧
      (ToolRegistry.executeTool ⟨[simpleToolDef (plainMeta "t" ToolCategory.custom)]⟩
        "t" "{}" {} 9).handlerInvoked = true) :=
  ⟨(execution_time_recorded ⟨[]⟩ "missing" "{}" {} 3).1 rfl,
    ((execution_time_recorded ⟨[simpleToolDef (plainMeta "t" ToolCategory.custom)]⟩
        "t" "{}" {} 9).2 (simpleToolDef (plainMeta "t" ToolCategory.custom)) rfl).2 rfl⟩

/-! ## C7: vault-requiring tools are filtered out without a vault -/

/-- One `getEnabledTools` pass with `vaultAvailable = false` never adds a
vault-requiring definition. -/
theorem enabledStep_no_vault (enabledToolIds : List String)
    (acc : List ToolDefinition) (d : ToolDefinition)
    (hacc : ∀ e ∈ acc, e.metadata.requiresVault = false) :
    ∀ e ∈ enabledStep enabledToolIds false acc d, e.metadata.requiresVault = false := by
  intro e he
  unfold enabledStep at he
  simp only [Bool.or_false] at he
  split at he
  · split at he
    · rcases List.mem_append.mp he with h | h
      · exact hacc e h
      · rcases List.mem_singleton.mp h with rfl
        simpa using (by assumption : (!e.metadata.requiresVault) = true)
    · exact hacc e he
  · split at he
    · split at he
      · rcases List.mem_append.mp he with h | h
        · exact hacc e h
        · rcases List.mem_singleton.mp h with rfl
          simpa using (by assumption : (!e.metadata.requiresVault) = true)
      · exact hacc e he
    · exact hacc e he

/-- Fold form of `enabledStep_no_vault`. -/
theorem getEnabled_no_vault_aux (enabledToolIds : List String) :
    ∀ (l acc : List ToolDefinition),
      (∀ e ∈ acc, e.metadata.requiresVault = false) →
      ∀ e ∈ l.foldl (enabledStep enabledToolIds false) acc,
        e.metadata.requiresVault = false := by
  intro l
  induction l with
  | nil => intro acc hacc; exact hacc
  | cons d t ih =>
    intro acc hacc
    exact ih _ (enabledStep_no_vault enabledToolIds acc d hacc)

/-- C7: for every registry, every user-enabled id set and every
vault-requiring tool, `getEnabledTools(ids, vaultAvailable = false)` never
includes that tool (always-enabled or user-enabled alike): the collected
definition list contains no entry with `requiresVault = true`, and the
returned `StructuredTool` list consists exactly of those definitions'
tools. -/
theorem vault_tools_excluded_without_vault (reg : ToolRegistry)
    (enabledToolIds : List String) (d : ToolDefinition)
    (hvault : d.metadata.requiresVault = true) :
    d ∉ reg.getEnabledToolDefs enabledToolIds false ∧
    reg.getEnabledTools enabledToolIds false =
      (reg.getEnabledToolDefs enabledToolIds false).map (·.tool) := by
  refine ⟨fun hd => ?_, rfl⟩
  have := getEnabled_no_vault_aux enabledToolIds reg.tools [] (by intro e he; cases he) d hd
  rw [hvault] at this
  cases this

/-- Witness for C7: a vault-requiring always-enabled tool is excluded from
a concrete registry resolved without a vault. -/
theorem vault_tools_excluded_without_vault_witness :
    simpleToolDef { plainMeta "v" ToolCategory.search with
        requiresVault := true, isAlwaysEnabled := true } ∉
      ToolRegistry.getEnabledToolDefs
        ⟨[simpleToolDef { plainMeta "v" ToolCategory.search with
            requiresVault := true, isAlwaysEnabled := true }]⟩ ["v"] false ∧
    ToolRegistry.getEnabledTools
        ⟨[simpleToolDef { plainMeta "v" ToolCategory.search with
            requiresVault := true, isAlwaysEnabled := true }]⟩ ["v"] false =
      (ToolRegistry.getEnabledToolDefs
        ⟨[simpleToolDef { plainMeta "v" ToolCategory.search with
            requiresVault := true, isAlwaysEnabled := true }]⟩ ["v"] false).map (·.tool) :=
  vault_tools_excluded_without_vault _ _ _ rfl

/-! ## C9: clearBuiltins / clearMCPTools partition the registry -/

/-- With pairwise-distinct keys, deleting a key from a JS-`Map` entry list
is filtering that key out. -/
theorem eraseP_key_eq_filter (k : String) :
    ∀ l : List ToolDefinition, (l.map (fun d => d.metadata.id)).Nodup →
      l.eraseP (fun d => d.metadata.id == k) =
        l.filter (fun d => d.metadata.id != k) := by
  intro l
  induction l with
  | nil => intro _; simp
  | cons d t ih =>
    intro h
    rw [List.map_cons, List.nodup_cons] at h
    obtain ⟨hd, ht⟩ := h
    rw [List.eraseP_cons]
    by_cases hk : d.metadata.id = k
    · have hbeq : (d.metadata.id == k) = true := beq_iff_eq.mpr hk
      have hfilter : t.filter (fun e => e.metadata.id != k) = t := by
        apply List.filter_eq_self.mpr
        intro e he
        refine bne_iff_ne.mpr fun heq => hd ?_
        exact List.mem_map.mpr ⟨e, he, by rw [heq, hk]⟩
      have hcons : List.filter (fun e => e.metadata.id != k) (d :: t) =
          List.filter (fun e => e.metadata.id != k) t :=
        List.filter_cons_of_neg (by simp [hk])
      simp only [hbeq, cond_true]
      rw [hcons, hfilter]
    · have hbeq : (d.metadata.id == k) = false := by simpa using hk
      have hcons : List.filter (fun e => e.metadata.id != k) (d :: t) =
          d :: List.filter (fun e => e.metadata.id != k) t :=
        List.filter_cons_of_pos (bne_iff_ne.mpr hk)
      simp only [hbeq, cond_false]
      rw [hcons, ih ht]

/-- The clearing fold removes from `acc` exactly the keys of the visited
entries that satisfy the predicate. -/
theorem foldl_clearStep_eq_filter (p : ToolDefinition → Bool) :
    ∀ (l acc : List ToolDefinition), (acc.map (fun d => d.metadata.id)).Nodup →
      l.foldl (clearStep p) acc =
        acc.filter (fun d =>
          !((l.filter p).map (fun e => e.metadata.id)).contains d.metadata.id) := by
  intro l
  induction l with
  | nil =>
    intro acc _
    simp [List.contains, List.elem]
  | cons d0 t ih =>
    intro acc hacc
    rw [List.foldl_cons]
    by_cases hp : p d0 = true
    · have hstep : clearStep p acc d0 =
          acc.filter (fun d => d.metadata.id != d0.metadata.id) := by
        unfold clearStep mapDelete
        rw [if_pos hp, eraseP_key_eq_filter _ _ hacc]
      have hsub : ((acc.filter (fun d => d.metadata.id != d0.metadata.id)).map
            (fun d => d.metadata.id)).Sublist (acc.map (fun d => d.metadata.id)) :=
        List.Sublist.map _ (List.filter_sublist acc)
      have hnodup' := List.Nodup.sublist hsub hacc
      rw [hstep, ih _ hnodup', List.filter_filter, List.filter_cons_of_pos hp,
        List.map_cons]
      apply List.filter_congr
      intro e _
      rw [List.contains_cons, Bool.not_or]
      simp [bne, Bool.and_comm]
    · have hstep : clearStep p acc d0 = acc := by unfold clearStep; rw [if_neg hp]
      rw [hstep, ih _ hacc, List.filter_cons_of_neg hp]

/-- Clearing by predicate `p` keeps exactly the entries with `¬ p`, when the
registry keys are distinct (the `Map` invariant). -/
theorem clear_eq_filter_not (p : ToolDefinition → Bool) (tools : List ToolDefinition)
    (h : (tools.map (fun d => d.metadata.id)).Nodup) :
    tools.foldl (clearStep p) tools = tools.filter (fun d => !p d) := by
  rw [foldl_clearStep_eq_filter p tools tools h]
  apply List.filter_congr
  intro d hd
  by_cases hp : p d = true
  · have hmem : d.metadata.id ∈ (tools.filter p).map (fun e => e.metadata.id) :=
      List.mem_map.mpr ⟨d, List.mem_filter.mpr ⟨hd, hp⟩, rfl⟩
    have : ((tools.filter p).map (fun e => e.metadata.id)).contains d.metadata.id
        = true := by
      simp [List.contains, List.elem_iff, hmem]
    rw [this, hp]
  · have hpf : p d = false := by simpa using hp
    have : ((tools.filter p).map (fun e => e.metadata.id)).contains d.metadata.id
        = false := by
      rw [Bool.eq_false_iff]
      intro hcon
      have hmem : d.metadata.id ∈ (tools.filter p).map (fun e => e.metadata.id) := by
        simpa [List.contains, List.elem_iff] using hcon
      obtain ⟨e, hef, heq⟩ := List.mem_map.mp hmem
      obtain ⟨het, hep⟩ := List.mem_filter.mp hef
      have : e = d := List.inj_on_of_nodup_map h het hd heq
      rw [this, hpf] at hep
      cases hep
    rw [this, hpf]

/-- `clearBuiltins` keeps exactly the MCP tools. -/
theorem clearBuiltins_eq (reg : ToolRegistry)
    (h : (reg.tools.map (fun d => d.metadata.id)).Nodup) :
    (reg.clearBuiltins).tools =
      reg.tools.filter (fun d => d.metadata.category == ToolCategory.mcp) := by
  unfold ToolRegistry.clearBuiltins
  rw [clear_eq_filter_not _ _ h]
  apply List.filter_congr
  intro d _
  simp [bne]

/-- `clearMCPTools` keeps exactly the non-MCP tools. -/
theorem clearMCPTools_eq (reg : ToolRegistry)
    (h : (reg.tools.map (fun d => d.metadata.id)).Nodup) :
    (reg.clearMCPTools).tools =
      reg.tools.filter (fun d => d.metadata.category != ToolCategory.mcp) := by
  unfold ToolRegistry.clearMCPTools
  rw [clear_eq_filter_not _ _ h]
  apply List.filter_congr
  intro d _
  simp [bne]

/-- C9: with distinct registry keys (the `Map` invariant), `clearBuiltins`
removes exactly the tools whose category is not `"mcp"` and leaves the MCP
entries unchanged in order; `clearMCPTools` removes exactly the MCP tools
and leaves the rest unchanged; applying both, in either order, empties the
registry. -/
theorem clear_builtins_mcp_partition (reg : ToolRegistry)
    (h : (reg.tools.map (fun d => d.metadata.id)).Nodup) :
    (reg.clearBuiltins).tools =
      reg.tools.filter (fun d => d.metadata.category == ToolCategory.mcp) ∧
    (reg.clearMCPTools).tools =
      reg.tools.filter (fun d => d.metadata.category != ToolCategory.mcp) ∧
    (reg.clearBuiltins.clearMCPTools).tools = [] ∧
    (reg.clearMCPTools.clearBuiltins).tools = [] := by
  have hcb := clearBuiltins_eq reg h
  have hcm := clearMCPTools_eq reg h
  refine ⟨hcb, hcm, ?_, ?_⟩
  · have h1 : ((reg.clearBuiltins).tools.map (fun d => d.metadata.id)).Nodup := by
      rw [hcb]
      exact List.Nodup.sublist (List.Sublist.map _ (List.filter_sublist _)) h
    rw [clearMCPTools_eq _ h1, hcb, List.filter_filter]
    apply List.filter_eq_nil_iff.mpr
    intro d _
    by_cases hc : d.metadata.category = ToolCategory.mcp <;> simp [hc]
  · have h1 : ((reg.clearMCPTools).tools.map (fun d => d.metadata.id)).Nodup := by
      rw [hcm]
      exact List.Nodup.sublist (List.Sublist.map _ (List.filter_sublist _)) h
    rw [clearBuiltins_eq _ h1, hcm, List.filter_filter]
    apply List.filter_eq_nil_iff.mpr
    intro d _
    by_cases hc : d.metadata.category = ToolCategory.mcp <;> simp [hc]

/-- Witness for C9 at a concrete two-tool registry (one MCP, one
builtin). -/
theorem clear_builtins_mcp_partition_witness :
    (ToolRegistry.clearBuiltins
        ⟨[simpleToolDef (plainMeta "m" ToolCategory.mcp),
          simpleToolDef (plainMeta "b" ToolCategory.search)]⟩).tools =
      [simpleToolDef (plainMeta "m" ToolCategory.mcp),
        simpleToolDef (plainMeta "b" ToolCategory.search)].filter
        (fun d => d.metadata.category == ToolCategory.mcp) ∧
    (ToolRegistry.clearMCPTools
        ⟨[simpleToolDef (plainMeta "m" ToolCategory.mcp),
          simpleToolDef (plainMeta "b" ToolCategory.search)]⟩).tools =
      [simpleToolDef (plainMeta "m" ToolCategory.mcp),
        simpleToolDef (plainMeta "b" ToolCategory.search)].filter
        (fun d => d.metadata.category != ToolCategory.mcp) ∧
    ((ToolRegistry.clearBuiltins
        ⟨[simpleToolDef (plainMeta "m" ToolCategory.mcp),
          simpleToolDef (plainMeta "b" ToolCategory.search)]⟩).clearMCPTools).tools = [] ∧
    ((ToolRegistry.clearMCPTools
        ⟨[simpleToolDef (plainMeta "m" ToolCategory.mcp),
          simpleToolDef (plainMeta "b" ToolCategory.search)]⟩).clearBuiltins).tools = [] :=
  clear_builtins_mcp_partition
    ⟨[simpleToolDef (plainMeta "m" ToolCategory.mcp),
      simpleToolDef (plainMeta "b" ToolCategory.search)]⟩ (by decide)

/-! ## C1: iteration and time budgets of the ReAct loop -/

/-- The post-loop epilogue performs no model calls. -/
theorem reactExit_modelCalls (env : LoopEnv) (iter : Nat) :
    (reactExit env iter).modelCalls = iter := by
  unfold reactExit
  split
  · split <;> rfl
  · rfl

/-- Loop invariant: outside Vault-QA mode, with a model that always
returns tool calls, the loop starting at `iter` with `fuel` remaining
guard-budget performs between `iter` and `iter + fuel` model calls; every
boundary it passed had the abort and the clock within budget; and it stops
at fuel exhaustion, abort, or the time budget. -/
theorem reactGo_inv (env : LoopEnv) (hqa : env.isVaultQAMode = false)
    (hmodel : ∀ k, ∃ c, env.model k = ModelStep.ok c true) :
    ∀ fuel iter,
      iter ≤ (reactGo env fuel iter).modelCalls ∧
      (reactGo env fuel iter).modelCalls ≤ iter + fuel ∧
      (∀ k, iter ≤ k → k < (reactGo env fuel iter).modelCalls →
        env.aborted k = false ∧ env.elapsed k < env.timeoutMs) ∧
      ((reactGo env fuel iter).modelCalls = iter + fuel ∨
        env.aborted ((reactGo env fuel iter).modelCalls) = true ∨
        env.timeoutMs ≤ env.elapsed ((reactGo env fuel iter).modelCalls)) := by
  intro fuel
  induction fuel with
  | zero =>
    intro iter
    rw [show reactGo env 0 iter = reactExit env iter from rfl]
    rw [reactExit_modelCalls]
    exact ⟨Nat.le_refl _, Nat.le_refl _, fun k hk1 hk2 => absurd hk2 (by omega),
      Or.inl rfl⟩
  | succ fuel ih =>
    intro iter
    by_cases hab : env.aborted iter = true
    · have hgo : reactGo env (fuel + 1) iter = reactExit env iter := by
        unfold reactGo
        rw [if_pos hab]
      rw [hgo, reactExit_modelCalls]
      exact ⟨Nat.le_refl _, by omega, fun k hk1 hk2 => absurd hk2 (by omega),
        Or.inr (Or.inl hab)⟩
    · have habf : env.aborted iter = false := by simpa using hab
      by_cases hto : env.timeoutMs ≤ env.elapsed iter
      · have hgo : reactGo env (fuel + 1) iter = reactExit env iter := by
          unfold reactGo
          rw [if_neg (by simp [habf]), if_pos hto]
        rw [hgo, reactExit_modelCalls]
        exact ⟨Nat.le_refl _, by omega, fun k hk1 hk2 => absurd hk2 (by omega),
          Or.inr (Or.inr hto)⟩
      · obtain ⟨c, hm⟩ := hmodel iter
        have hgo : reactGo env (fuel + 1) iter = reactGo env fuel (iter + 1) := by
          simp [reactGo, habf, hto, hm, hqa]
        obtain ⟨h1, h2, h3, h4⟩ := ih (iter + 1)
        rw [hgo]
        refine ⟨by omega, by omega, ?_, ?_⟩
        · intro k hk1 hk2
          rcases Nat.eq_or_lt_of_le hk1 with rfl | hlt
          · exact ⟨habf, Nat.lt_of_not_le hto⟩
          · exact h3 k hlt hk2
        · rcases h4 with h | h
          · exact Or.inl (by omega)
          · exact Or.inr h

/-- C1: for every model that always returns tool calls, every
`maxIterations` setting, every clock and every abort schedule, the loop
performs at most `max(1, maxIterations)` model-call iterations
(`maxIterations` being forced to 1 in Vault-QA mode by `resolveMaxIterations`);
every iteration it did perform was within both the iteration budget and
the wall-clock budget checked at its boundary; and it exits exactly when
the iteration budget, the abort signal, or the time budget observed at a
boundary is exhausted — never exceeding either bound. -/
theorem agent_loop_iterations_bounded (env : LoopEnv)
    (hmodel : ∀ k, ∃ c, env.model k = ModelStep.ok c true) :
    (runReActLoop env).modelCalls ≤
        max 1 (resolveMaxIterations env.isVaultQAMode env.settingsMaxIterations) ∧
    (∀ k, k < (runReActLoop env).modelCalls →
        env.aborted k = false ∧ env.elapsed k < env.timeoutMs ∧
        k < resolveMaxIterations env.isVaultQAMode env.settingsMaxIterations) ∧
    ((runReActLoop env).modelCalls
        = resolveMaxIterations env.isVaultQAMode env.settingsMaxIterations ∨
      env.aborted ((runReActLoop env).modelCalls) = true ∨
      env.timeoutMs ≤ env.elapsed ((runReActLoop env).modelCalls)) := by
  unfold runReActLoop
  cases hqa : env.isVaultQAMode with
  | false =>
    have hres : resolveMaxIterations false env.settingsMaxIterations
        = env.settingsMaxIterations := rfl
    rw [hres]
    obtain ⟨h1, h2, h3, h4⟩ := reactGo_inv env hqa hmodel env.settingsMaxIterations 0
    refine ⟨?_, ?_, ?_⟩
    · calc (reactGo env env.settingsMaxIterations 0).modelCalls
          ≤ 0 + env.settingsMaxIterations := h2
        _ ≤ max 1 env.settingsMaxIterations := by omega
    · intro k hk
      obtain ⟨ha, he⟩ := h3 k (Nat.zero_le k) hk
      exact ⟨ha, he, by omega⟩
    · rcases h4 with h | h
      · exact Or.inl (by omega)
      · exact Or.inr h
  | true =>
    have hres : resolveMaxIterations true env.settingsMaxIterations = 1 := rfl
    rw [hres]
    by_cases hab : env.aborted 0 = true
    · have hgo : reactGo env 1 0 = reactExit env 0 := by
        unfold reactGo
        rw [if_pos hab]
      rw [hgo, reactExit_modelCalls]
      exact ⟨by omega, fun k hk => absurd hk (by omega), Or.inr (Or.inl hab)⟩
    · have habf : env.aborted 0 = false := by simpa using hab
      by_cases hto : env.timeoutMs ≤ env.elapsed 0
      · have hgo : reactGo env 1 0 = reactExit env 0 := by
          unfold reactGo
          rw [if_neg (by simp [habf]), if_pos hto]
        rw [hgo, reactExit_modelCalls]
        exact ⟨by omega, fun k hk => absurd hk (by omega), Or.inr (Or.inr hto)⟩
      · obtain ⟨c, hm⟩ := hmodel 0
        have hgo : (reactGo env 1 0).modelCalls = 1 := by
          simp [reactGo, habf, hto, hm, hqa, reactExit_modelCalls]
        rw [hgo]
        refine ⟨by omega, ?_, Or.inl rfl⟩
        intro k hk
        have hk0 : k = 0 := by omega
        subst hk0
        exact ⟨habf, Nat.lt_of_not_le hto, by omega⟩

/-- Witness for C1 at a concrete environment (non-QA, budget 3, ticking
clock, never aborted, model always calling tools). -/
theorem agent_loop_iterations_bounded_witness :
    (runReActLoop busyLoopEnv).modelCalls ≤
      max 1 (resolveMaxIterations busyLoopEnv.isVaultQAMode
        busyLoopEnv.settingsMaxIterations) :=
  (agent_loop_iterations_bounded busyLoopEnv (fun _ => ⟨"step", rfl⟩)).1

/-! ## C4: cancellation before any model response -/

/-- C4 counterexample: with the signal already aborted at the first
boundary and the narrator timer *not* having handled the abort, the loop
performs no model call yet returns the interruption notice, not the empty
string (AgentChainRunner.ts lines 978-987). -/
theorem abort_before_response_counterexample :
    (runReActLoop abortedLoopEnv).outcome =
      Except.ok "The response was interrupted." ∧
    (runReActLoop abortedLoopEnv).modelCalls = 0 ∧
    "The response was interrupted." ≠ "" := by
  refine ⟨rfl, rfl, by simp⟩

/-- C4 (amended): for every run whose cancellation signal is observed
aborted at the very first iteration boundary — before any model response —
the loop performs no model call and returns normally (no thrown error);
its `finalResponse` is the empty string when the narrator timer has
already marked the abort handled, and otherwise the reasoning block
followed by "The response was interrupted.". -/
theorem abort_before_response (env : LoopEnv) (h0 : env.aborted 0 = true) :
    runReActLoop env =
      { outcome := Except.ok (if env.abortHandledByTimer then ""
          else joinBlock env.reasoningBlock "The response was interrupted.")
        modelCalls := 0 } := by
  have hexit : reactExit env 0 =
      { outcome := Except.ok (if env.abortHandledByTimer then ""
          else joinBlock env.reasoningBlock "The response was interrupted.")
        modelCalls := 0 } := by
    unfold reactExit
    rw [if_pos h0]
    cases hb : env.abortHandledByTimer <;> simp [hb]
  unfold runReActLoop
  cases hres : resolveMaxIterations env.isVaultQAMode env.settingsMaxIterations with
  | zero =>
    rw [show reactGo env 0 0 = reactExit env 0 from rfl, hexit]
  | succ n =>
    have hgo : reactGo env (n + 1) 0 = reactExit env 0 := by
      unfold reactGo
      rw [if_pos h0]
    rw [hgo, hexit]

/-- Witness for C4's amended theorem at a concrete aborted environment
whose timer handled the abort. -/
theorem abort_before_response_witness :
    runReActLoop abortedTimerLoopEnv =
      { outcome := Except.ok (if abortedTimerLoopEnv.abortHandledByTimer then ""
          else joinBlock abortedTimerLoopEnv.reasoningBlock
            "The response was interrupted.")
        modelCalls := 0 } :=
  abort_before_response abortedTimerLoopEnv rfl

/-! ## C5: deduplicateSources -/

/-- The `any`-test of `dedupStep` is key membership. -/
theorem dedupStep_any_iff (acc : List AgentSource) (s : AgentSource) :
    acc.any (fun t => sourceKey t == sourceKey s) = true ↔
      sourceKey s ∈ acc.map sourceKey := by
  rw [List.any_eq_true, List.mem_map]
  constructor
  · rintro ⟨t, ht, hbeq⟩
    exact ⟨t, ht, beq_iff_eq.mp hbeq⟩
  · rintro ⟨t, ht, heq⟩
    exact ⟨t, ht, beq_iff_eq.mpr heq⟩

/-- One dedup step inserts the new key if unseen and otherwise leaves the
key list unchanged. -/
theorem dedupStep_keys (acc : List AgentSource) (s : AgentSource) :
    (dedupStep acc s).map sourceKey = insStep (acc.map sourceKey) (sourceKey s) := by
  unfold dedupStep insStep
  by_cases h : acc.any (fun t => sourceKey t == sourceKey s) = true
  · rw [if_pos h, if_pos ((dedupStep_any_iff acc s).mp h), List.map_map]
    apply List.map_congr_left
    intro t _
    by_cases hc : (sourceKey t == sourceKey s && decide (t.score < s.score)) = true
    · have hk : sourceKey t = sourceKey s ∧ t.score < s.score := by simpa using hc
      simp [Function.comp, hc, hk.1, hk.2]
    · simp [Function.comp, hc]
  · rw [if_neg h, if_neg (fun hm => h ((dedupStep_any_iff acc s).mpr hm))]
    simp

/-- Key lists through the whole fold. -/
theorem dedup_keys_aux :
    ∀ (l acc : List AgentSource),
      (l.foldl dedupStep acc).map sourceKey =
        (l.map sourceKey).foldl insStep (acc.map sourceKey) := by
  intro l
  induction l with
  | nil => intro acc; rfl
  | cons s t ih =>
    intro acc
    rw [List.foldl_cons, List.map_cons, List.foldl_cons, ih, dedupStep_keys]

/-- C5 key-order fact: the deduplicated keys are the input keys in
first-seen order. -/
theorem dedup_keys (l : List AgentSource) :
    (deduplicateSources l).map sourceKey = firstSeenKeys (l.map sourceKey) :=
  dedup_keys_aux l []

/-- `insStep` preserves distinctness. -/
theorem insStep_foldl_nodup :
    ∀ (ks acc : List String), acc.Nodup → (ks.foldl insStep acc).Nodup := by
  intro ks
  induction ks with
  | nil => intro acc h; exact h
  | cons k t ih =>
    intro acc h
    rw [List.foldl_cons]
    apply ih
    unfold insStep
    by_cases hk : k ∈ acc
    · rw [if_pos hk]; exact h
    · rw [if_neg hk]
      simp [List.nodup_append, h, hk]

/-- The deduplicated list has pairwise-distinct keys. -/
theorem dedup_keys_nodup (l : List AgentSource) :
    ((deduplicateSources l).map sourceKey).Nodup := by
  rw [dedup_keys]
  exact insStep_foldl_nodup _ [] List.nodup_nil

/-- A list whose keys are already distinct is left unchanged by the
fold. -/
theorem dedup_of_nodup_aux :
    ∀ (l acc : List AgentSource), ((acc ++ l).map sourceKey).Nodup →
      l.foldl dedupStep acc = acc ++ l := by
  intro l
  induction l with
  | nil => intro acc _; simp
  | cons s t ih =>
    intro acc h
    have hnotin : sourceKey s ∉ acc.map sourceKey := by
      rw [List.map_append] at h
      obtain ⟨_, _, hdisj⟩ := List.nodup_append.mp h
      intro hmem
      exact hdisj hmem (by simp)
    have hany : ¬ acc.any (fun t => sourceKey t == sourceKey s) = true :=
      fun ha => hnotin ((dedupStep_any_iff acc s).mp ha)
    have hstep : dedupStep acc s = acc ++ [s] := by
      unfold dedupStep
      rw [if_neg hany]
    rw [List.foldl_cons, hstep, ih (acc ++ [s]) (by simpa [List.append_assoc] using h)]
    simp

/-- C5 idempotence. -/
theorem dedup_idempotent (l : List AgentSource) :
    deduplicateSources (deduplicateSources l) = deduplicateSources l := by
  have h := dedup_of_nodup_aux (deduplicateSources l) [] (by simpa using dedup_keys_nodup l)
  simpa [deduplicateSources] using h

/-- Every entry of a dedup step comes from the accumulator or is the new
source. -/
theorem dedupStep_mem (acc : List AgentSource) (s : AgentSource) :
    ∀ t ∈ dedupStep acc s, t ∈ acc ∨ t = s := by
  intro t ht
  unfold dedupStep at ht
  split at ht
  · obtain ⟨u, hu, hgu⟩ := List.mem_map.mp ht
    by_cases hc : (sourceKey u == sourceKey s && decide (u.score < s.score)) = true
    · rw [if_pos hc] at hgu
      exact Or.inr hgu.symm
    · rw [if_neg hc] at hgu
      exact Or.inl (hgu ▸ hu)
  · rcases List.mem_append.mp ht with h | h
    · exact Or.inl h
    · exact Or.inr (List.mem_singleton.mp h)

/-- Surviving entries come from the input. -/
theorem dedup_mem_aux :
    ∀ (l acc : List AgentSource), ∀ t ∈ l.foldl dedupStep acc, t ∈ acc ∨ t ∈ l := by
  intro l
  induction l with
  | nil => intro acc t ht; exact Or.inl ht
  | cons s rest ih =>
    intro acc t ht
    rw [List.foldl_cons] at ht
    rcases ih (dedupStep acc s) t ht with h | h
    · rcases dedupStep_mem acc s t h with h' | h'
      · exact Or.inl h'
      · exact Or.inr (h' ▸ List.mem_cons_self s rest)
    · exact Or.inr (List.mem_cons_of_mem s h)

/-- Once every key-`k` entry of the accumulator scores at least `c` (and
the key is present), the fold preserves this lower bound. -/
theorem dedupStep_bound (acc : List AgentSource) (u : AgentSource) (k : String)
    (c : Int) (hmem : k ∈ acc.map sourceKey)
    (hbd : ∀ t ∈ acc, sourceKey t = k → c ≤ t.score) :
    k ∈ (dedupStep acc u).map sourceKey ∧
      ∀ t ∈ dedupStep acc u, sourceKey t = k → c ≤ t.score := by
  constructor
  · rw [dedupStep_keys]
    unfold insStep
    split
    · exact hmem
    · exact List.mem_append_left _ hmem
  · intro t ht hk
    unfold dedupStep at ht
    split at ht
    · obtain ⟨v, hv, hgv⟩ := List.mem_map.mp ht
      by_cases hc : (sourceKey v == sourceKey u && decide (v.score < u.score)) = true
      · rw [if_pos hc] at hgv
        obtain ⟨hkv, hvlt⟩ : sourceKey v = sourceKey u ∧ v.score < u.score := by
          simpa using hc
        have hvk : sourceKey v = k := by rw [hkv, hgv, hk]
        have := hbd v hv hvk
        rw [← hgv]
        omega
      · rw [if_neg hc] at hgv
        exact hbd t (hgv ▸ hv) hk
    · rename_i hany
      rcases List.mem_append.mp ht with h | h
      · exact hbd t h hk
      · rcases List.mem_singleton.mp h with rfl
        exact absurd ((dedupStep_any_iff acc t).mpr (by rw [hk]; exact hmem)) hany

/-- Lower bounds on a key's score survive the rest of the fold. -/
theorem fold_bound :
    ∀ (l acc : List AgentSource) (k : String) (c : Int),
      k ∈ acc.map sourceKey → (∀ t ∈ acc, sourceKey t = k → c ≤ t.score) →
      ∀ t ∈ l.foldl dedupStep acc, sourceKey t = k → c ≤ t.score := by
  intro l
  induction l with
  | nil => intro acc k c _ hbd t ht hk; exact hbd t ht hk
  | cons u rest ih =>
    intro acc k c hmem hbd
    rw [List.foldl_cons]
    obtain ⟨hmem', hbd'⟩ := dedupStep_bound acc u k c hmem hbd
    exact ih (dedupStep acc u) k c hmem' hbd'

/-- Processing `s` leaves every entry with `s`'s key scoring at least
`s.score`. -/
theorem dedupStep_self_bound (acc : List AgentSource) (s : AgentSource) :
    sourceKey s ∈ (dedupStep acc s).map sourceKey ∧
      ∀ t ∈ dedupStep acc s, sourceKey t = sourceKey s → s.score ≤ t.score := by
  constructor
  · rw [dedupStep_keys]
    unfold insStep
    split
    · assumption
    · exact List.mem_append_right _ (by simp)
  · intro t ht hk
    unfold dedupStep at ht
    split at ht
    · obtain ⟨v, hv, hgv⟩ := List.mem_map.mp ht
      by_cases hc : (sourceKey v == sourceKey s && decide (v.score < s.score)) = true
      · rw [if_pos hc] at hgv
        rw [← hgv]
      · rw [if_neg hc] at hgv
        have hns : ¬(sourceKey v = sourceKey s ∧ v.score < s.score) := by
          simpa using hc
        have hkv : sourceKey v = sourceKey s := by rw [hgv, hk]
        have : ¬ v.score < s.score := fun hlt => hns ⟨hkv, hlt⟩
        rw [← hgv]
        omega
    · rename_i hany
      rcases List.mem_append.mp ht with h | h
      · have hmm : sourceKey s ∈ List.map sourceKey acc := by
          rw [← hk]
          exact List.mem_map.mpr ⟨t, h, rfl⟩
        exact absurd ((dedupStep_any_iff acc s).mpr hmm) hany
      · rcases List.mem_singleton.mp h with rfl
        exact le_refl _

/-- Each surviving entry's score is maximal among the input entries with
its key. -/
theorem dedup_max_aux :
    ∀ (l acc : List AgentSource), ∀ t ∈ l.foldl dedupStep acc,
      ∀ s ∈ l, sourceKey s = sourceKey t → s.score ≤ t.score := by
  intro l
  induction l with
  | nil => intro acc t _ s hs; cases hs
  | cons u rest ih =>
    intro acc t ht s hs hk
    rw [List.foldl_cons] at ht
    rcases List.mem_cons.mp hs with rfl | hs'
    · obtain ⟨hmem, hbd⟩ := dedupStep_self_bound acc s
      exact fold_bound rest (dedupStep acc s) (sourceKey s) s.score hmem hbd t ht hk.symm
    · exact ih (dedupStep acc u) t ht s hs' hk

/-- C5: `deduplicateSources` is idempotent; every surviving entry is an
input entry whose score is the maximum among all input entries with the
same (lower-cased path-or-title) key; the output keys are pairwise
distinct and appear in first-seen input order. -/
theorem deduplicateSources_spec (l : List AgentSource) :
    deduplicateSources (deduplicateSources l) = deduplicateSources l ∧
    (∀ t ∈ deduplicateSources l, t ∈ l ∧
      ∀ s ∈ l, sourceKey s = sourceKey t → s.score ≤ t.score) ∧
    (deduplicateSources l).map sourceKey = firstSeenKeys (l.map sourceKey) ∧
    ((deduplicateSources l).map sourceKey).Nodup := by
  refine ⟨dedup_idempotent l, ?_, dedup_keys l, dedup_keys_nodup l⟩
  intro t ht
  constructor
  · rcases dedup_mem_aux l [] t ht with h | h
    · cases h
    · exact h
  · exact dedup_max_aux l [] t ht

/-- Witness for C5 at two sources sharing a case-insensitive key. -/
theorem deduplicateSources_spec_witness :
    deduplicateSources (deduplicateSources
        [{ title := "A", path := "x.md", score := 1 },
         { title := "B", path := "X.md", score := 5 }]) =
      deduplicateSources
        [{ title := "A", path := "x.md", score := 1 },
         { title := "B", path := "X.md", score := 5 }] ∧
    ({ title := "B", path := "X.md", score := 5 } : AgentSource) ∈
      ([{ title := "A", path := "x.md", score := 1 },
        { title := "B", path := "X.md", score := 5 }] : List AgentSource) ∧
    (1 : Int) ≤ (5 : Int) :=
  ⟨(deduplicateSources_spec _).1,
    ((deduplicateSources_spec _).2.1 _ (by decide)).1,
    ((deduplicateSources_spec
        [{ title := "A", path := "x.md", score := 1 },
         { title := "B", path := "X.md", score := 5 }]).2.1
      { title := "B", path := "X.md", score := 5 } (by decide)).2
      { title := "A", path := "x.md", score := 1 } (by decide) (by decide)⟩

/-! ## C6: the narrator's rolling window -/

/-- Every `addReasoningStep` call appends to the unbounded full history. -/
theorem addReasoningStep_allSteps (st : NarratorState) (ts : Nat) (sm : String)
    (tn : Option String) (dOnly : Bool) :
    (addReasoningStep st ts sm tn dOnly).allSteps = st.allSteps ++ [⟨ts, sm, tn⟩] := by
  unfold addReasoningStep
  split <;> rfl

/-- The full history after a call sequence is the recorded steps in
order. -/
theorem applyCalls_allSteps :
    ∀ (calls : List StepCall) (st : NarratorState),
      (applyCalls st calls).allSteps = st.allSteps ++ calls.map StepCall.step := by
  intro calls
  induction calls with
  | nil => intro st; simp [applyCalls]
  | cons c cs ih =>
    intro st
    rw [show applyCalls st (c :: cs) =
      applyCalls (addReasoningStep st c.timestamp c.summary c.toolName c.detailedOnly) cs
      from rfl, ih, addReasoningStep_allSteps, List.append_assoc]
    rfl

/-- `takeLast` of a short list is the whole list. -/
theorem takeLast_of_le (n : Nat) (l : List α) (h : l.length ≤ n) :
    takeLast n l = l := by
  unfold takeLast
  rw [Nat.sub_eq_zero_of_le h, List.drop_zero]

/-- `takeLast` returns at most `n` elements. -/
theorem takeLast_length_le (n : Nat) (l : List α) : (takeLast n l).length ≤ n := by
  unfold takeLast
  rw [List.length_drop]
  omega

/-- A long-enough right part absorbs `takeLast`. -/
theorem takeLast_append_left (n : Nat) (p z : List α) (h : n ≤ z.length) :
    takeLast n (p ++ z) = takeLast n z := by
  unfold takeLast
  rw [List.length_append, show p.length + z.length - n = p.length + (z.length - n)
    from by omega, List.drop_append]

/-- `takeLast` only depends on the last `n` elements. -/
theorem takeLast_takeLast_append (n : Nat) (l m : List α) :
    takeLast n (takeLast n l ++ m) = takeLast n (l ++ m) := by
  by_cases h : l.length ≤ n
  · rw [takeLast_of_le n l h]
  · have hlen : (takeLast n l).length = n := by
      unfold takeLast
      rw [List.length_drop]
      omega
    have hZ : n ≤ (takeLast n l ++ m).length := by
      rw [List.length_append, hlen]
      omega
    have hjoin : l.take (l.length - n) ++ takeLast n l = l := by
      unfold takeLast
      exact List.take_append_drop _ l
    calc takeLast n (takeLast n l ++ m)
        = takeLast n (l.take (l.length - n) ++ (takeLast n l ++ m)) :=
          (takeLast_append_left n _ _ hZ).symm
      _ = takeLast n (l ++ m) := by rw [← List.append_assoc, hjoin]

/-- One non-`detailedOnly` step keeps the rolling window at the last 4
steps. -/
theorem addReasoningStep_rolling (st : NarratorState) (ts : Nat) (sm : String)
    (tn : Option String) (h : st.rollingSteps.length ≤ 4) :
    (addReasoningStep st ts sm tn false).rollingSteps =
      takeLast 4 (st.rollingSteps ++ [⟨ts, sm, tn⟩]) := by
  unfold addReasoningStep takeLast
  simp only [Bool.false_eq_true, if_false]
  by_cases h5 : (st.rollingSteps ++ [(⟨ts, sm, tn⟩ : ReasoningStep)]).length > 4
  · rw [if_pos h5]
    have : (st.rollingSteps ++ [(⟨ts, sm, tn⟩ : ReasoningStep)]).length = 5 := by
      rw [List.length_append] at h5 ⊢
      simp at h5 ⊢
      omega
    rw [this]
  · rw [if_neg h5]
    have : (st.rollingSteps ++ [(⟨ts, sm, tn⟩ : ReasoningStep)]).length - 4 = 0 := by
      omega
    rw [this, List.drop_zero]

/-- The rolling window after a non-`detailedOnly` call sequence is the
last 4 of the accumulated steps. -/
theorem applyCalls_rolling :
    ∀ (calls : List StepCall) (st : NarratorState), st.rollingSteps.length ≤ 4 →
      (∀ c ∈ calls, c.detailedOnly = false) →
      (applyCalls st calls).rollingSteps =
        takeLast 4 (st.rollingSteps ++ calls.map StepCall.step) := by
  intro calls
  induction calls with
  | nil =>
    intro st h _
    simp [applyCalls]
    exact (takeLast_of_le 4 _ h).symm
  | cons c cs ih =>
    intro st h hdet
    have hc : c.detailedOnly = false := hdet c (List.mem_cons_self c cs)
    have hstep : applyCalls st (c :: cs) =
        applyCalls (addReasoningStep st c.timestamp c.summary c.toolName false) cs := by
      rw [show applyCalls st (c :: cs) =
        applyCalls (addReasoningStep st c.timestamp c.summary c.toolName c.detailedOnly) cs
        from rfl, hc]
    rw [hstep, ih _ (by rw [addReasoningStep_rolling st _ _ _ h]; exact
        takeLast_length_le 4 _)
      (fun d hd => hdet d (List.mem_cons_of_mem c hd)),
      addReasoningStep_rolling st _ _ _ h, takeLast_takeLast_append,
      List.append_assoc]
    rfl

/-- C6: after more than 4 `addReasoningStep` calls, none `detailedOnly`,
the rolling window holds exactly the most recent 4 recorded steps (and the
live-rendered block is the serialization of that window), while the block
rendered with status `complete` or `collapsed` is the serialization of
*all* recorded steps in order. -/
theorem narrator_rolling_window (calls : List StepCall)
    (hlen : calls.length > 4) (hdet : ∀ c ∈ calls, c.detailedOnly = false) :
    (applyCalls initialNarratorState calls).rollingSteps =
      takeLast 4 (calls.map StepCall.step) ∧
    (takeLast 4 (calls.map StepCall.step)).length = 4 ∧
    (applyCalls initialNarratorState calls).allSteps = calls.map StepCall.step ∧
    buildReasoningBlockMarkup
        (withStatus (applyCalls initialNarratorState calls) ReasoningStatus.reasoning) =
      serializeReasoningBlock
        ⟨ReasoningStatus.reasoning, takeLast 4 (calls.map StepCall.step)⟩ ∧
    buildReasoningBlockMarkup
        (withStatus (applyCalls initialNarratorState calls) ReasoningStatus.complete) =
      serializeReasoningBlock ⟨ReasoningStatus.complete, calls.map StepCall.step⟩ ∧
    buildReasoningBlockMarkup
        (withStatus (applyCalls initialNarratorState calls) ReasoningStatus.collapsed) =
      serializeReasoningBlock ⟨ReasoningStatus.collapsed, calls.map StepCall.step⟩ := by
  have hroll : (applyCalls initialNarratorState calls).rollingSteps =
      takeLast 4 (calls.map StepCall.step) := by
    rw [applyCalls_rolling calls initialNarratorState (by simp [initialNarratorState])
      hdet]
    rfl
  have hall : (applyCalls initialNarratorState calls).allSteps =
      calls.map StepCall.step := by
    rw [applyCalls_allSteps]
    rfl
  refine ⟨hroll, ?_, hall, ?_, ?_, ?_⟩
  · unfold takeLast
    rw [List.length_drop, List.length_map]
    omega
  · simp [buildReasoningBlockMarkup, withStatus, hroll]
  · simp [buildReasoningBlockMarkup, withStatus, hall]
  · simp [buildReasoningBlockMarkup, withStatus, hall]

/-- Witness for C6 at five concrete calls. -/
theorem narrator_rolling_window_witness :
    (applyCalls initialNarratorState sampleStepCalls).rollingSteps =
      takeLast 4 (sampleStepCalls.map StepCall.step) ∧
    (takeLast 4 (sampleStepCalls.map StepCall.step)).length = 4 ∧
    (applyCalls initialNarratorState sampleStepCalls).allSteps =
      sampleStepCalls.map StepCall.step ∧
    buildReasoningBlockMarkup
        (withStatus (applyCalls initialNarratorState sampleStepCalls)
          ReasoningStatus.reasoning) =
      serializeReasoningBlock
        ⟨ReasoningStatus.reasoning, takeLast 4 (sampleStepCalls.map StepCall.step)⟩ ∧
    buildReasoningBlockMarkup
        (withStatus (applyCalls initialNarratorState sampleStepCalls)
          ReasoningStatus.complete) =
      serializeReasoningBlock ⟨ReasoningStatus.complete, sampleStepCalls.map StepCall.step⟩ ∧
    buildReasoningBlockMarkup
        (withStatus (applyCalls initialNarratorState sampleStepCalls)
          ReasoningStatus.collapsed) =
      serializeReasoningBlock ⟨ReasoningStatus.collapsed, sampleStepCalls.map StepCall.step⟩ :=
  narrator_rolling_window sampleStepCalls (by decide) (by decide)

/-! ## C10: escapeXml and the context-item serializer -/

/-- Single-character global replacement distributes over append. -/
theorem replaceCharAll_append (pat : Char) (rep : List Char) :
    ∀ a b : List Char,
      replaceCharAll pat rep (a ++ b) =
        replaceCharAll pat rep a ++ replaceCharAll pat rep b := by
  intro a b
  induction a with
  | nil => rfl
  | cons c t ih =>
    show (if c = pat then rep else [c]) ++ replaceCharAll pat rep (t ++ b) =
      ((if c = pat then rep else [c]) ++ replaceCharAll pat rep t) ++
        replaceCharAll pat rep b
    rw [ih, List.append_assoc]

/-- The whole escaping pipeline distributes over append. -/
theorem escapeXmlChars_append (a b : List Char) :
    escapeXmlChars (a ++ b) = escapeXmlChars a ++ escapeXmlChars b := by
  unfold escapeXmlChars
  rw [replaceCharAll_append, replaceCharAll_append, replaceCharAll_append,
    replaceCharAll_append, replaceCharAll_append]

/-- The pipeline's image of a single character. -/
theorem escapeXmlChars_single (c : Char) : escapeXmlChars [c] = escChar c := by
  unfold escChar
  by_cases h1 : c = '&'
  · subst h1; rfl
  · by_cases h2 : c = '<'
    · subst h2; rfl
    · by_cases h3 : c = '>'
      · subst h3; rfl
      · by_cases h4 : c = '"'
        · subst h4; rfl
        · by_cases h5 : c = '\''
          · subst h5; rfl
          · simp only [h1, h2, h3, h4, h5, if_false]
            unfold escapeXmlChars replaceCharAll
            simp [h1, h2, h3, h4, h5, replaceCharAll]

/-- The chained replacements equal the character-wise map. -/
theorem escapeXmlChars_eq_flat : ∀ l : List Char, escapeXmlChars l = escapeFlat l := by
  intro l
  induction l with
  | nil => rfl
  | cons c t ih =>
    rw [show (c :: t) = [c] ++ t from rfl, escapeXmlChars_append, ih,
      escapeXmlChars_single]
    rfl

/-- No escaped block contains a raw special character. -/
theorem escChar_no_special (c : Char) : ∀ x ∈ escChar c, isRawSpecial x = false := by
  unfold escChar
  by_cases h1 : c = '&'
  · subst h1; decide
  · by_cases h2 : c = '<'
    · subst h2; decide
    · by_cases h3 : c = '>'
      · subst h3; decide
      · by_cases h4 : c = '"'
        · subst h4; decide
        · by_cases h5 : c = '\''
          · subst h5; decide
          · simp only [h1, h2, h3, h4, h5, if_false]
            intro x hx
            rcases List.mem_singleton.mp hx with rfl
            simp [isRawSpecial, h2, h3, h4, h5]

/-- Escaped text contains no raw `<`, `>`, `"`, `'`. -/
theorem escapeFlat_no_special :
    ∀ l : List Char, ∀ x ∈ escapeFlat l, isRawSpecial x = false := by
  intro l
  induction l with
  | nil => intro x hx; cases hx
  | cons c t ih =>
    intro x hx
    rcases List.mem_append.mp hx with h | h
    · exact escChar_no_special c x h
    · exact ih x h

/-- An escaped block never disturbs entity well-formedness. -/
theorem ampWellFormed_escChar (c : Char) (t : List Char) :
    ampWellFormed (escChar c ++ t) = ampWellFormed t := by
  unfold escChar
  by_cases h1 : c = '&'
  · subst h1; rfl
  · by_cases h2 : c = '<'
    · subst h2; rfl
    · by_cases h3 : c = '>'
      · subst h3; rfl
      · by_cases h4 : c = '"'
        · subst h4; rfl
        · by_cases h5 : c = '\''
          · subst h5; rfl
          · simp only [h1, h2, h3, h4, h5, if_false, List.singleton_append]
            have hb : (c != '&') = true := bne_iff_ne.mpr h1
            simp [ampWellFormed, hb]

/-- Every `&` in escaped text starts one of the five entities. -/
theorem ampWellFormed_escapeFlat : ∀ l : List Char, ampWellFormed (escapeFlat l) = true := by
  intro l
  induction l with
  | nil => rfl
  | cons c t ih =>
    rw [show escapeFlat (c :: t) = escChar c ++ escapeFlat t from rfl,
      ampWellFormed_escChar, ih]

/-- Escaped blocks are nonempty. -/
theorem escChar_length_pos (c : Char) : 0 < (escChar c).length := by
  unfold escChar
  split_ifs <;> simp

/-- With enough fuel, the decoder undoes character-wise escaping. -/
theorem unescGo_escapeFlat :
    ∀ (l : List Char) (fuel : Nat), (escapeFlat l).length ≤ fuel →
      unescGo fuel (escapeFlat l) = l := by
  intro l
  induction l with
  | nil =>
    intro fuel _
    cases fuel <;> rfl
  | cons c t ih =>
    intro fuel hle
    have hlen : (escapeFlat (c :: t)).length =
        (escChar c).length + (escapeFlat t).length := by
      rw [show escapeFlat (c :: t) = escChar c ++ escapeFlat t from rfl,
        List.length_append]
    have hcpos := escChar_length_pos c
    cases fuel with
    | zero => omega
    | succ f =>
      have hrest : (escapeFlat t).length ≤ f := by omega
      by_cases h1 : c = '&'
      · subst h1
        rw [show unescGo (f + 1) (escapeFlat ('&' :: t)) =
          '&' :: unescGo f (escapeFlat t) from rfl, ih f hrest]
      · by_cases h2 : c = '<'
        · subst h2
          rw [show unescGo (f + 1) (escapeFlat ('<' :: t)) =
            '<' :: unescGo f (escapeFlat t) from rfl, ih f hrest]
        · by_cases h3 : c = '>'
          · subst h3
            rw [show unescGo (f + 1) (escapeFlat ('>' :: t)) =
              '>' :: unescGo f (escapeFlat t) from rfl, ih f hrest]
          · by_cases h4 : c = '"'
            · subst h4
              rw [show unescGo (f + 1) (escapeFlat ('"' :: t)) =
                '"' :: unescGo f (escapeFlat t) from rfl, ih f hrest]
            · by_cases h5 : c = '\''
              · subst h5
                rw [show unescGo (f + 1) (escapeFlat ('\'' :: t)) =
                  '\'' :: unescGo f (escapeFlat t) from rfl, ih f hrest]
              · have hblock : escapeFlat (c :: t) = c :: escapeFlat t := by
                  rw [show escapeFlat (c :: t) = escChar c ++ escapeFlat t from rfl]
                  simp [escChar, h1, h2, h3, h4, h5]
                have hstep : unescGo (f + 1) (c :: escapeFlat t) =
                    if c = '&' then
                      match decodeEntity (escapeFlat t) with
                      | some (d, r) => d :: unescGo f r
                      | none => c :: unescGo f (escapeFlat t)
                    else c :: unescGo f (escapeFlat t) := rfl
                rw [hblock, hstep, if_neg h1, ih f hrest]

/-- The decoder is a left inverse of character-wise escaping. -/
theorem unescape_escapeFlat (l : List Char) :
    unescapeXmlChars (escapeFlat l) = l := by
  unfold unescapeXmlChars
  exact unescGo_escapeFlat l _ (Nat.le_refl _)

/-- String-level roundtrip. -/
theorem unescape_escapeXml (s : String) : unescapeXml (escapeXml s) = s := by
  unfold unescapeXml escapeXml
  rw [escapeXmlChars_eq_flat, unescape_escapeFlat]

/-- `escapeXml` is injective. -/
theorem escapeXml_injective (a b : String) (h : escapeXml a = escapeXml b) : a = b := by
  have := congrArg unescapeXml h
  rwa [unescape_escapeXml, unescape_escapeXml] at this

/-- `escapeXml` sends only the empty string to the empty string. -/
theorem escapeXml_eq_empty_iff (s : String) : escapeXml s = "" ↔ s = "" :=
  ⟨fun h => escapeXml_injective s "" h, fun h => by subst h; decide⟩

/-- `escapeXml` preserves string truthiness. -/
theorem escapeXml_bne_empty (s : String) : (escapeXml s != "") = (s != "") := by
  by_cases h : s = ""
  · subst h; rfl
  · have h2 : escapeXml s ≠ "" := fun hc => h ((escapeXml_eq_empty_iff s).mp hc)
    rw [bne_iff_ne.mpr h2, bne_iff_ne.mpr h]

/-- `escapeXml` commutes with `getD ""` on optional fields. -/
theorem escapeXml_getD (o : Option String) :
    (o.map escapeXml).getD "" = escapeXml (o.getD "") := by
  cases o <;> rfl

/-- `escapeXml` preserves truthiness of optional fields. -/
theorem jsTruthyOptStr_map (o : Option String) :
    jsTruthyOptStr (o.map escapeXml) = jsTruthyOptStr o := by
  cases o with
  | none => rfl
  | some s => exact escapeXml_bne_empty s

/-- The source serializer factors through `escapeXml` on exactly the
escaped fields: its output equals the verbatim templates applied to the
item with those fields pre-escaped. -/
theorem serialize_factors (item : ContextItem) :
    serializeContextItemToXml item =
      serializeContextItemRaw (escapeContextFields item) := by
  cases item with
  | note_ref x =>
    simp only [serializeContextItemToXml, serializeContextItemRaw,
      serializeContextItemWith, escapeContextFields, contextXmlTag, serializeNoteRefWith,
      jsTruthyOptStr_map, escapeXml_getD, escapeXml_bne_empty]
  | vault_search_result x =>
    simp only [serializeContextItemToXml, serializeContextItemRaw,
      serializeContextItemWith, escapeContextFields, contextXmlTag, serializeVaultSearchResultWith,
      jsTruthyOptStr_map, escapeXml_getD, escapeXml_bne_empty]
  | url_ref x =>
    simp only [serializeContextItemToXml, serializeContextItemRaw,
      serializeContextItemWith, escapeContextFields, contextXmlTag, serializeUrlRefWith,
      jsTruthyOptStr_map, escapeXml_getD, escapeXml_bne_empty]
  | youtube_transcript x =>
    simp only [serializeContextItemToXml, serializeContextItemRaw,
      serializeContextItemWith, escapeContextFields, contextXmlTag, serializeYouTubeTranscriptWith,
      jsTruthyOptStr_map, escapeXml_getD, escapeXml_bne_empty]
  | web_tab x =>
    simp only [serializeContextItemToXml, serializeContextItemRaw,
      serializeContextItemWith, escapeContextFields, contextXmlTag, serializeWebTabWith,
      jsTruthyOptStr_map, escapeXml_getD, escapeXml_bne_empty]
  | selected_text_note x =>
    rfl
  | selected_text_web x =>
    simp only [serializeContextItemToXml, serializeContextItemRaw,
      serializeContextItemWith, escapeContextFields, contextXmlTag, serializeSelectedTextWebWith,
      jsTruthyOptStr_map, escapeXml_getD, escapeXml_bne_empty]
  | tag_ref x =>
    simp only [serializeContextItemToXml, serializeContextItemRaw,
      serializeContextItemWith, escapeContextFields, contextXmlTag, serializeTagRefWith]
    cases x.matchingNotes with
    | none => rfl
    | some notes =>
      simp only [List.map_id']
      simp [List.length_map]
  | folder_ref x =>
    simp only [serializeContextItemToXml, serializeContextItemRaw,
      serializeContextItemWith, escapeContextFields, contextXmlTag, serializeFolderRefWith]
    cases x.matchingNotes with
    | none => rfl
    | some notes =>
      simp only [List.map_id']
      simp [List.length_map]
  | custom_content x =>
    rfl

/-- C10: `escapeXml` output contains none of `<`, `>`, `"`, `'`, and every
`&` in it starts one of the five entities `&amp; &lt; &gt; &quot; &apos;`;
`escapeXml` is injective (it has the explicit left inverse `unescapeXml`);
and `serializeContextItemToXml` embeds every item's `title`, `path`, `url`
and `content` (and the other escaped string fields) in its XML output only
through `escapeXml` — the output equals the verbatim templates applied to
the pre-escaped fields. -/
theorem escapeXml_serialization_safe :
    (∀ s : String, (∀ c ∈ (escapeXml s).data, isRawSpecial c = false) ∧
      ampWellFormed (escapeXml s).data = true) ∧
    (∀ s : String, unescapeXml (escapeXml s) = s) ∧
    (∀ a b : String, escapeXml a = escapeXml b → a = b) ∧
    (∀ item : ContextItem,
      serializeContextItemToXml item =
        serializeContextItemRaw (escapeContextFields item)) := by
  refine ⟨fun s => ⟨?_, ?_⟩, unescape_escapeXml, escapeXml_injective, serialize_factors⟩
  · rw [show (escapeXml s).data = escapeXmlChars s.data from rfl,
      escapeXmlChars_eq_flat]
    exact escapeFlat_no_special s.data
  · rw [show (escapeXml s).data = escapeXmlChars s.data from rfl,
      escapeXmlChars_eq_flat]
    exact ampWellFormed_escapeFlat s.data

/-- Witness for C10 at concrete strings and a concrete context item. -/
theorem escapeXml_serialization_safe_witness :
    isRawSpecial '&' = false ∧
    ampWellFormed (escapeXml "<a&b>").data = true ∧
    unescapeXml (escapeXml "x<y'z") = "x<y'z" ∧
    ("q" : String) = "q" ∧
    serializeContextItemToXml sampleNoteItem =
      serializeContextItemRaw (escapeContextFields sampleNoteItem) :=
  ⟨(escapeXml_serialization_safe.1 "<a&b>").1 '&' (by decide),
    (escapeXml_serialization_safe.1 "<a&b>").2,
    escapeXml_serialization_safe.2.1 "x<y'z",
    escapeXml_serialization_safe.2.2.1 "q" "q" rfl,
    escapeXml_serialization_safe.2.2.2 sampleNoteItem⟩

end CopilotPlus
